import Mathlib

/-!
# fwupd: bounds-safe stream reads and the firmware parse contract

A shallow embedding of

* `libfwupdplugin/fu-input-stream.c` (safe reads, fixed-width readers, size, chunked folds),
* `plugins/ep963x/fu-ep963x-firmware.c` (fixed-size firmware variant),
* `plugins/genesys/fu-genesys-usbhub-pd-firmware.c` (computed size with checksum),

followed by theorems about these definitions.

Conventions.  `gsize` values are natural numbers (a real `gsize` is below `2 ^ 64`);
every narrowing conversion the C code performs (`(guint)x`, `gsize → guint`,
`gsize → goffset`) is written out with an explicit `%`.  A `GError **` out-parameter
together with the `gboolean` return is an `Except GError _`; mutable objects reachable
through pointers (the stream, the destination buffer, the firmware, an out-value) are
threaded through explicitly and returned next to the result, because the C code may
have changed them even when it reports failure.  The `g_return_val_if_fail` guards at the
top of each function (a real stream object, a clean `GError`, a non-`NULL` buffer) are
taken to hold, with one exception: `fu_input_stream_read_buf` can hand a `NULL` data
pointer to `fu_input_stream_read_safe`, so that call goes through
`fu_input_stream_read_safe_nullable`, which models the guard `buf != NULL`.  GLib itself
is modelled as documented: a stream is a byte sequence with a position; a read returns
the bytes available at the position, up to the count asked for.
-/

set_option autoImplicit false

namespace Fwupd

/-! ## GLib: errors, byte arrays, seekable input streams -/

/-- One `guint8`. -/
abbrev Byte := Fin 256

/-- Error domain and code of a `GError`, flattened into one enumeration.  `NO_ERROR_SET`
stands for a failure return that leaves the caller's `GError` unset, as a failed
`g_return_val_if_fail` guard does (it only logs a critical message). -/
inductive GErrorCode where
  | OUT_OF_RANGE
  | G_IO_ERROR_INVALID_ARGUMENT
  | G_IO_ERROR_PARTIAL_INPUT
  | G_IO_ERROR_INVALID_DATA
  | FWUPD_ERROR_INVALID_FILE
  | NO_ERROR_SET
  | OTHER (code : Nat)
  deriving DecidableEq, Repr

/-- A `GError`: machine-readable code and human-readable message. -/
structure GError where
  code : GErrorCode
  message : String
  deriving DecidableEq, Repr

deriving instance DecidableEq for Except

/-- `g_prefix_error`: prepend context to the message, keep the code. -/
def g_prefix_error (pre : String) (e : GError) : GError :=
  { e with message := pre ++ e.message }

/-- The `%x` conversion of `printf`: lower-case hexadecimal without padding. -/
def fmt_x (n : Nat) : String := String.mk (Nat.toDigits 16 n)

/-- The C cast `(guint)x` of a `gsize`/`gssize` value: keep the low 32 bits. -/
def to_guint (n : Nat) : Nat := n % 2 ^ 32

/-- The implicit C conversion of a `gsize` argument to a `goffset` (`gint64`) parameter. -/
def gsize_to_goffset (n : Nat) : Int :=
  if n % 2 ^ 64 < 2 ^ 63 then ((n % 2 ^ 64 : Nat) : Int) else ((n % 2 ^ 64 : Nat) : Int) - 2 ^ 64

/-- `GSeekType`. -/
inductive GSeekType where
  | G_SEEK_CUR
  | G_SEEK_SET
  | G_SEEK_END
  deriving DecidableEq, Repr

/-- A call made on the byte source; the stream keeps the list of calls it received. -/
inductive StreamOp where
  | seek (offset : Int) (type : GSeekType)
  | read (count : Nat)
  deriving DecidableEq, Repr

/-- A seekable `GInputStream` over a byte source: its content, the current position,
whether the backend accepts positions beyond the end (a file does, a memory stream does
not), and the I/O calls issued on it so far (most recent last). -/
structure GInputStream where
  data : List Byte
  pos : Nat
  seek_past_end : Bool
  log : List StreamOp
  deriving DecidableEq, Repr

/-- `g_seekable_seek`: move to an absolute position computed from `offset` and `type`.
Negative targets are rejected; targets beyond the end are rejected unless the backend
allows them.  A rejected seek leaves the position alone. -/
def g_seekable_seek (stream : GInputStream) (offset : Int) (type : GSeekType) :
    Except GError Unit × GInputStream :=
  let base : Int :=
    match type with
    | .G_SEEK_CUR => stream.pos
    | .G_SEEK_SET => 0
    | .G_SEEK_END => stream.data.length
  let absolute : Int := base + offset
  let logged : GInputStream := { stream with log := stream.log ++ [StreamOp.seek offset type] }
  if absolute < 0 ∨ (stream.seek_past_end = false ∧ (stream.data.length : Int) < absolute) then
    (.error ⟨.G_IO_ERROR_INVALID_ARGUMENT, "Invalid seek request"⟩, logged)
  else
    (.ok (), { logged with pos := absolute.toNat })

/-- `g_seekable_tell`: the current position. -/
def g_seekable_tell (stream : GInputStream) : Nat := stream.pos

/-- `g_input_stream_read`: one read of up to `count` bytes at the current position.
`.error` stands for the return value `-1`; `.ok bytes` stands for the return value
`bytes.length`, the bytes being what was stored at the destination.  A count above
`G_MAXSSIZE` is refused; otherwise the read returns what is available, up to `count`,
and advances the position by that much. -/
def g_input_stream_read (stream : GInputStream) (count : Nat) :
    Except GError (List Byte) × GInputStream :=
  let logged : GInputStream := { stream with log := stream.log ++ [StreamOp.read count] }
  if count = 0 then
    (.ok [], logged)
  else if 2 ^ 63 ≤ count then
    (.error ⟨.G_IO_ERROR_INVALID_ARGUMENT,
      "Too large count value passed to g_input_stream_read"⟩, logged)
  else
    let bytes := (stream.data.drop stream.pos).take count
    (.ok bytes, { logged with pos := stream.pos + bytes.length })

/-- Store `bytes` into `buf` starting at index `offset` (what a read into `buf + offset`
does to a destination that holds at least `offset + bytes.length` bytes). -/
def mem_store (buf : List Byte) (offset : Nat) (bytes : List Byte) : List Byte :=
  buf.take offset ++ bytes ++ buf.drop (offset + bytes.length)

/-! ## libfwupdplugin helpers that are not among the sources -/

/-- Modelled from the spec: `fu_memchk_write` (fu-mem.c), the bounds check
`fu_input_stream_read_safe` runs first.  The spec: it "computes `buffer_offset + count`
and fails with an OUT_OF_RANGE condition if it exceeds the buffer's capacity", the
condition being "would-overflow buffer arithmetic, detected before I/O"; so the sum is
the mathematical one. -/
def fu_memchk_write (bufsz offset n : Nat) : Except GError Unit :=
  if bufsz < offset + n then
    .error ⟨.OUT_OF_RANGE,
      "attempted to write 0x" ++ fmt_x (to_guint n) ++ " bytes at offset 0x" ++
        fmt_x (to_guint offset) ++ " to buffer of 0x" ++ fmt_x (to_guint bufsz)⟩
  else
    .ok ()

/-- Byte order of a fixed-width value (`FuEndianType`). -/
inductive FuEndianType where
  | G_LITTLE_ENDIAN
  | G_BIG_ENDIAN
  deriving DecidableEq, Repr

/-- Byte `i` of a buffer as a number (`buf[i]`). -/
def byte_at (buf : List Byte) (i : Nat) : Nat := (buf.getD i 0).val

/-- Modelled from the spec: `fu_memread_uint16` (fu-mem.c), which "decodes using the
specified byte order (little or big endian)". -/
def fu_memread_uint16 (buf : List Byte) : FuEndianType → Nat
  | .G_LITTLE_ENDIAN => byte_at buf 0 + 2 ^ 8 * byte_at buf 1
  | .G_BIG_ENDIAN => 2 ^ 8 * byte_at buf 0 + byte_at buf 1

/-- Modelled from the spec: `fu_memread_uint24` (fu-mem.c): "24-bit values decode as a
3-byte unsigned integer extended to 32 bits". -/
def fu_memread_uint24 (buf : List Byte) : FuEndianType → Nat
  | .G_LITTLE_ENDIAN => byte_at buf 0 + 2 ^ 8 * byte_at buf 1 + 2 ^ 16 * byte_at buf 2
  | .G_BIG_ENDIAN => 2 ^ 16 * byte_at buf 0 + 2 ^ 8 * byte_at buf 1 + byte_at buf 2

/-- Modelled from the spec: `fu_memread_uint32` (fu-mem.c), which "decodes using the
specified byte order (little or big endian)". -/
def fu_memread_uint32 (buf : List Byte) : FuEndianType → Nat
  | .G_LITTLE_ENDIAN =>
    byte_at buf 0 + 2 ^ 8 * byte_at buf 1 + 2 ^ 16 * byte_at buf 2 + 2 ^ 24 * byte_at buf 3
  | .G_BIG_ENDIAN =>
    2 ^ 24 * byte_at buf 0 + 2 ^ 16 * byte_at buf 1 + 2 ^ 8 * byte_at buf 2 + byte_at buf 3

/-- Modelled from the spec: `fu_memread_uint64` (fu-mem.c), which "decodes using the
specified byte order (little or big endian)". -/
def fu_memread_uint64 (buf : List Byte) : FuEndianType → Nat
  | .G_LITTLE_ENDIAN =>
    byte_at buf 0 + 2 ^ 8 * byte_at buf 1 + 2 ^ 16 * byte_at buf 2 + 2 ^ 24 * byte_at buf 3 +
      2 ^ 32 * byte_at buf 4 + 2 ^ 40 * byte_at buf 5 + 2 ^ 48 * byte_at buf 6 +
      2 ^ 56 * byte_at buf 7
  | .G_BIG_ENDIAN =>
    2 ^ 56 * byte_at buf 0 + 2 ^ 48 * byte_at buf 1 + 2 ^ 40 * byte_at buf 2 +
      2 ^ 32 * byte_at buf 3 + 2 ^ 24 * byte_at buf 4 + 2 ^ 16 * byte_at buf 5 +
      2 ^ 8 * byte_at buf 6 + byte_at buf 7

/-- Modelled from the spec: `fu_memwrite_uint32` (fu-mem.c), the encoder that is the
inverse of the decoder above: the four bytes of a 32-bit value in the given byte order
("writing a known little-endian 32-bit value V"). -/
def fu_memwrite_uint32 (val : Nat) : FuEndianType → List Byte
  | .G_LITTLE_ENDIAN =>
    [Fin.ofNat val, Fin.ofNat (val / 2 ^ 8), Fin.ofNat (val / 2 ^ 16), Fin.ofNat (val / 2 ^ 24)]
  | .G_BIG_ENDIAN =>
    [Fin.ofNat (val / 2 ^ 24), Fin.ofNat (val / 2 ^ 16), Fin.ofNat (val / 2 ^ 8), Fin.ofNat val]

/-- Modelled from the spec: `fu_sum8` (fu-sum.c), "an 8-bit wraparound arithmetic sum
accumulator (`sum8`, wrapping modulo 256 on overflow)" over the first `bufsz` bytes. -/
def fu_sum8 (buf : List Byte) (bufsz : Nat) : Nat :=
  (buf.take bufsz).foldl (fun checksum b => (checksum + b.val) % 256) 0

/-- A `GByteArray`: its `len` bytes, and whether storage has been allocated for it; the
`data` pointer is `NULL` until then. -/
structure GByteArray where
  bytes : List Byte
  allocated : Bool
  deriving DecidableEq, Repr

/-- `array->data`: `none` stands for `NULL`. -/
def GByteArray.data (array : GByteArray) : Option (List Byte) :=
  if array.allocated then some array.bytes else none

/-- `array->len`. -/
def GByteArray.len (array : GByteArray) : Nat := array.bytes.length

/-- `g_byte_array_sized_new`: an empty array; the reserved size is a `guint`, and storage
is allocated only when it is not 0. -/
def g_byte_array_sized_new (reserved_size : Nat) : GByteArray :=
  ⟨[], decide (to_guint reserved_size ≠ 0)⟩

/-- `g_byte_array_set_size`: the parameter is a `guint`, so a `gsize` argument is cut to
its low 32 bits; new elements are modelled as zero; storage is allocated when the array
grows. -/
def g_byte_array_set_size (array : GByteArray) (length : Nat) : GByteArray :=
  ⟨array.bytes.take (to_guint length) ++
      List.replicate (to_guint length - array.bytes.length) 0,
    array.allocated || decide (array.bytes.length < to_guint length)⟩

/-! ## fu-input-stream.c -/

/-- `fu_input_stream_read_safe`: bounds check, absolute seek, one read, and the
short-read test.  Returns the result, the destination buffer and the stream. -/
def fu_input_stream_read_safe (stream : GInputStream) (buf : List Byte)
    (bufsz offset seek_set count : Nat) : Except GError Unit × List Byte × GInputStream :=
  match fu_memchk_write bufsz offset count with
  | .error e => (.error e, buf, stream)
  | .ok () =>
    match g_seekable_seek stream (gsize_to_goffset seek_set) .G_SEEK_SET with
    | (.error e, stream1) =>
      (.error (g_prefix_error ("seek to 0x" ++ fmt_x (to_guint seek_set) ++ ": ") e), buf, stream1)
    | (.ok (), stream1) =>
      match g_input_stream_read stream1 count with
      | (.error e, stream2) =>
        (.error (g_prefix_error ("failed read of 0x" ++ fmt_x (to_guint count) ++ ": ") e),
          buf, stream2)
      | (.ok bytes, stream2) =>
        if bytes.length ≠ count then
          (.error ⟨.G_IO_ERROR_PARTIAL_INPUT,
            "requested 0x" ++ fmt_x (to_guint count) ++ " and got 0x" ++
              fmt_x (to_guint bytes.length)⟩,
            mem_store buf offset bytes, stream2)
        else
          (.ok (), mem_store buf offset bytes, stream2)

/-- `fu_input_stream_read_u8`.  The out-pointer `value` is `none` for `NULL` and
`some v` for a cell holding `v`; the cell is returned next to the result. -/
def fu_input_stream_read_u8 (stream : GInputStream) (offset : Nat) (value : Option Nat) :
    Except GError Unit × Option Nat × GInputStream :=
  let buf : List Byte := [0]
  match fu_input_stream_read_safe stream buf 1 0x0 offset 1 with
  | (.error e, _, stream1) => (.error e, value, stream1)
  | (.ok (), buf1, stream1) => (.ok (), value.map (fun _ => byte_at buf1 0), stream1)

/-- `fu_input_stream_read_u16`. -/
def fu_input_stream_read_u16 (stream : GInputStream) (offset : Nat) (value : Option Nat)
    (endian : FuEndianType) : Except GError Unit × Option Nat × GInputStream :=
  let buf : List Byte := [0, 0]
  match fu_input_stream_read_safe stream buf 2 0x0 offset 2 with
  | (.error e, _, stream1) => (.error e, value, stream1)
  | (.ok (), buf1, stream1) =>
    (.ok (), value.map (fun _ => fu_memread_uint16 buf1 endian), stream1)

/-- `fu_input_stream_read_u24`. -/
def fu_input_stream_read_u24 (stream : GInputStream) (offset : Nat) (value : Option Nat)
    (endian : FuEndianType) : Except GError Unit × Option Nat × GInputStream :=
  let buf : List Byte := [0, 0, 0]
  match fu_input_stream_read_safe stream buf 3 0x0 offset 3 with
  | (.error e, _, stream1) => (.error e, value, stream1)
  | (.ok (), buf1, stream1) =>
    (.ok (), value.map (fun _ => fu_memread_uint24 buf1 endian), stream1)

/-- `fu_input_stream_read_u32`. -/
def fu_input_stream_read_u32 (stream : GInputStream) (offset : Nat) (value : Option Nat)
    (endian : FuEndianType) : Except GError Unit × Option Nat × GInputStream :=
  let buf : List Byte := [0, 0, 0, 0]
  match fu_input_stream_read_safe stream buf 4 0x0 offset 4 with
  | (.error e, _, stream1) => (.error e, value, stream1)
  | (.ok (), buf1, stream1) =>
    (.ok (), value.map (fun _ => fu_memread_uint32 buf1 endian), stream1)

/-- `fu_input_stream_read_u64`. -/
def fu_input_stream_read_u64 (stream : GInputStream) (offset : Nat) (value : Option Nat)
    (endian : FuEndianType) : Except GError Unit × Option Nat × GInputStream :=
  let buf : List Byte := [0, 0, 0, 0, 0, 0, 0, 0]
  match fu_input_stream_read_safe stream buf 8 0x0 offset 8 with
  | (.error e, _, stream1) => (.error e, value, stream1)
  | (.ok (), buf1, stream1) =>
    (.ok (), value.map (fun _ => fu_memread_uint64 buf1 endian), stream1)

/-- `fu_input_stream_read_safe` called with a buffer pointer that may be `NULL` (`none`):
the guard `g_return_val_if_fail(buf != NULL, FALSE)` returns `FALSE` before anything
else, leaving the `GError` unset and the stream alone; otherwise the body runs. -/
def fu_input_stream_read_safe_nullable (stream : GInputStream) (buf : Option (List Byte))
    (bufsz offset seek_set count : Nat) :
    Except GError Unit × Option (List Byte) × GInputStream :=
  match buf with
  | none =>
    (.error ⟨.NO_ERROR_SET, "fu_input_stream_read_safe: assertion 'buf != NULL' failed"⟩,
      none, stream)
  | some b =>
    match fu_input_stream_read_safe stream b bufsz offset seek_set count with
    | (ret, b1, stream1) => (ret, some b1, stream1)

/-- `fu_input_stream_read_buf`: a byte array sized to `length`, filled by one safe read
into `buf->data`.  `buf->len` is a `guint`; on failure the array is freed and `NULL` is
returned. -/
def fu_input_stream_read_buf (stream : GInputStream) (offset length : Nat) :
    Except GError (List Byte) × GInputStream :=
  let buf := g_byte_array_set_size (g_byte_array_sized_new length) length
  match fu_input_stream_read_safe_nullable stream buf.data buf.len 0x0 offset buf.len with
  | (.error e, _, stream1) => (.error e, stream1)
  | (.ok (), data1, stream1) => (.ok (data1.getD buf.bytes), stream1)

/-- `fu_input_stream_read_bytes`: the same read, handed over as immutable bytes. -/
def fu_input_stream_read_bytes (stream : GInputStream) (offset length : Nat) :
    Except GError (List Byte) × GInputStream :=
  match fu_input_stream_read_buf stream offset length with
  | (.error e, stream1) => (.error e, stream1)
  | (.ok buf, stream1) => (.ok buf, stream1)

/-- `fu_input_stream_size`: seek to the end and report the position reached. -/
def fu_input_stream_size (stream : GInputStream) (val : Option Nat) :
    Except GError Unit × Option Nat × GInputStream :=
  match g_seekable_seek stream 0 .G_SEEK_END with
  | (.error e, stream1) => (.error (g_prefix_error "seek to end: " e), val, stream1)
  | (.ok (), stream1) => (.ok (), val.map (fun _ => g_seekable_tell stream1), stream1)

/-! ### Chunk arrays over a stream (fu-chunk-array.c is not among the sources) -/

/-- Modelled from the spec: a `FuChunk`, "a transient (offset, length, data-view) triple
produced by partitioning a stream into fixed-size windows". -/
structure FuChunk where
  idx : Nat
  address : Nat
  data : List Byte
  deriving DecidableEq, Repr

/-- Modelled from the spec: a `FuChunkArray` made from a stream: the window size and the
total size of the stream it partitions. -/
structure FuChunkArray where
  addr_offset : Nat
  packet_sz : Nat
  total_size : Nat
  deriving DecidableEq, Repr

/-- Modelled from the spec: `fu_chunk_array_new_from_stream` (fu-chunk-array.c): the
partition covers the stream "from offset 0 to end", so it records the total size. -/
def fu_chunk_array_new_from_stream (stream : GInputStream) (addr_offset packet_sz : Nat) :
    Except GError FuChunkArray × GInputStream :=
  match fu_input_stream_size stream (some 0) with
  | (.error e, _, stream1) => (.error e, stream1)
  | (.ok (), val, stream1) => (.ok ⟨addr_offset, packet_sz, val.getD 0⟩, stream1)

/-- Modelled from the spec: `fu_chunk_array_length` (fu-chunk-array.c): the number of
"consecutive, non-overlapping windows of at most `window_size` bytes from offset 0 to end",
the last of which "may be shorter". -/
def fu_chunk_array_length (chunks : FuChunkArray) : Nat :=
  (chunks.total_size + chunks.packet_sz - 1) / chunks.packet_sz

/-- Modelled from the spec: `fu_chunk_array_index` (fu-chunk-array.c): window `idx`
starts at `idx * window_size` and holds at most `window_size` bytes, read from the
stream; an index past the last window is a lookup failure. -/
def fu_chunk_array_index (chunks : FuChunkArray) (stream : GInputStream) (idx : Nat) :
    Except GError FuChunk × GInputStream :=
  let offset := idx * chunks.packet_sz
  if chunks.total_size ≤ offset then
    (.error ⟨.OTHER 0, "index 0x" ++ fmt_x (to_guint idx) ++ " invalid"⟩, stream)
  else
    let length := min chunks.packet_sz (chunks.total_size - offset)
    match fu_input_stream_read_bytes stream offset length with
    | (.error e, stream1) => (.error e, stream1)
    | (.ok blob, stream1) => (.ok ⟨idx, chunks.addr_offset + offset, blob⟩, stream1)

/-- Modelled from the spec: `fu_chunk_get_data` (fu-chunk.c), the "data-view" of a chunk. -/
def fu_chunk_get_data (chk : FuChunk) : List Byte := chk.data

/-- Modelled from the spec: `fu_chunk_get_data_sz` (fu-chunk.c), the "length" of a chunk. -/
def fu_chunk_get_data_sz (chk : FuChunk) : Nat := chk.data.length

/-- The `for` loop of `fu_input_stream_chunkify`: `remaining` iterations are left and
the next index is `i`.  The callback gets the window, its size and the user data, and
returns its verdict with the user data as it left them. -/
def fu_input_stream_chunkify_loop {α : Type} (chunks : FuChunkArray)
    (func_cb : List Byte → Nat → α → Except GError Unit × α) :
    Nat → Nat → α → GInputStream → Except GError Unit × α × GInputStream
  | 0, _, user_data, stream => (.ok (), user_data, stream)
  | remaining + 1, i, user_data, stream =>
    match fu_chunk_array_index chunks stream i with
    | (.error e, stream1) => (.error e, user_data, stream1)
    | (.ok chk, stream1) =>
      match func_cb (fu_chunk_get_data chk) (fu_chunk_get_data_sz chk) user_data with
      | (.error e, user_data1) => (.error e, user_data1, stream1)
      | (.ok (), user_data1) =>
        fu_input_stream_chunkify_loop chunks func_cb remaining (i + 1) user_data1 stream1

/-- `fu_input_stream_chunkify`: split the stream into blocks of `0x8000` bytes and call
`func_cb` on each. -/
def fu_input_stream_chunkify {α : Type} (stream : GInputStream)
    (func_cb : List Byte → Nat → α → Except GError Unit × α) (user_data : α) :
    Except GError Unit × α × GInputStream :=
  match fu_chunk_array_new_from_stream stream 0x0 0x8000 with
  | (.error e, stream1) => (.error e, user_data, stream1)
  | (.ok chunks, stream1) =>
    fu_input_stream_chunkify_loop chunks func_cb (fu_chunk_array_length chunks) 0 user_data
      stream1

/-- `fu_input_stream_compute_sum8_cb`: `*value += fu_sum8(buf, bufsz)` on a `guint8`. -/
def fu_input_stream_compute_sum8_cb (buf : List Byte) (bufsz : Nat) (user_data : Nat) :
    Except GError Unit × Nat :=
  (.ok (), (user_data + fu_sum8 buf bufsz) % 256)

/-- `fu_input_stream_compute_sum8`; `value` is what the caller's `guint8` held before. -/
def fu_input_stream_compute_sum8 (stream : GInputStream) (value : Nat) :
    Except GError Unit × Nat × GInputStream :=
  fu_input_stream_chunkify stream fu_input_stream_compute_sum8_cb value

/-- The callback that only records the windows it is called with, in call order. -/
def record_cb (buf : List Byte) (bufsz : Nat) (user_data : List (List Byte)) :
    Except GError Unit × List (List Byte) :=
  (.ok (), user_data ++ [buf.take bufsz])

/-- Calling a chunk callback on a list of windows in order, stopping at the first
failure: what the loop of `fu_input_stream_chunkify` does once the windows are known. -/
def fold_cb {α : Type} (func_cb : List Byte → Nat → α → Except GError Unit × α) :
    List (List Byte) → α → Except GError Unit × α
  | [], user_data => (.ok (), user_data)
  | w :: ws, user_data =>
    match func_cb w w.length user_data with
    | (.error e, user_data1) => (.error e, user_data1)
    | (.ok (), user_data1) => fold_cb func_cb ws user_data1

/-- Window `i` of a byte sequence cut into windows of `packet_sz` bytes. -/
def window_at (data : List Byte) (packet_sz i : Nat) : List Byte :=
  (data.drop (i * packet_sz)).take packet_sz

/-- Two stream states over the same byte source: same content and same backend
behaviour; position and call log may differ. -/
def same_source (s t : GInputStream) : Prop :=
  s.data = t.data ∧ s.seek_past_end = t.seek_past_end

/-- A chunk callback wrapped so that every invocation is recorded: the user data carry a
list of (window, verdict) pairs, one per call of `func_cb`, in call order. -/
def traced_cb {α : Type} (func_cb : List Byte → Nat → α → Except GError Unit × α)
    (buf : List Byte) (bufsz : Nat) (user_data : α × List (List Byte × Except GError Unit)) :
    Except GError Unit × (α × List (List Byte × Except GError Unit)) :=
  ((func_cb buf bufsz user_data.1).1,
    ((func_cb buf bufsz user_data.1).2,
      user_data.2 ++ [(buf.take bufsz, (func_cb buf bufsz user_data.1).1)]))

/-- A callback that accepts windows until their bytes sum to more than `limit`. -/
def limit_cb (limit : Nat) (buf : List Byte) (bufsz : Nat) (user_data : Nat) :
    Except GError Unit × Nat :=
  if limit < user_data + ((buf.take bufsz).map Fin.val).sum then
    (.error ⟨.OTHER 5, "limit exceeded"⟩, user_data)
  else
    (.ok (), user_data + ((buf.take bufsz).map Fin.val).sum)

/-! ## Firmware objects (fu-firmware.c and fu-bytes.c are not among the sources) -/

/-- Immutable bytes (`GBytes`). -/
abbrev GBytes := List Byte

/-- Modelled from the spec: the `FuFirmware` object, with the attributes the spec lists:
"identifier (string tag), index (small integer, format-defined), byte payload (owned,
possibly truncated relative to the input), alignment requirement", flags such as "has
checksum", and "derived metadata (e.g., version string)".  It is "constructed empty". -/
structure FuFirmware where
  id : Option String
  idx : Nat
  alignment : Nat
  bytes : Option GBytes
  version : Option String
  flags : Nat
  deriving DecidableEq, Repr

/-- Modelled from the spec: `fu_firmware_set_id` stores the "identifier (string tag)". -/
def fu_firmware_set_id (firmware : FuFirmware) (id : Option String) : FuFirmware :=
  { firmware with id := id }

/-- Modelled from the spec: `fu_firmware_set_idx` stores the "index (small integer)". -/
def fu_firmware_set_idx (firmware : FuFirmware) (idx : Nat) : FuFirmware :=
  { firmware with idx := idx }

/-- Modelled from the spec: `fu_firmware_set_alignment` stores the "alignment
requirement". -/
def fu_firmware_set_alignment (firmware : FuFirmware) (alignment : Nat) : FuFirmware :=
  { firmware with alignment := alignment }

/-- Modelled from the spec: `fu_firmware_set_bytes` stores the "byte payload". -/
def fu_firmware_set_bytes (firmware : FuFirmware) (bytes : GBytes) : FuFirmware :=
  { firmware with bytes := some bytes }

/-- Modelled from the spec: `fu_firmware_set_version` stores the "version string". -/
def fu_firmware_set_version (firmware : FuFirmware) (version : String) : FuFirmware :=
  { firmware with version := some version }

/-- Modelled from the spec: `fu_bytes_new_offset` (fu-bytes.c), the truncation step: it
must "materialize the retained payload as exactly that effective length, discarding any
trailing bytes beyond it", so "only a sub-range is retained"; a sub-range that does not
fit in the input cannot have exactly that length and is a failure. -/
def fu_bytes_new_offset (bytes : GBytes) (offset length : Nat) : Except GError GBytes :=
  if bytes.length < offset + length then
    .error ⟨.G_IO_ERROR_INVALID_DATA,
      "cannot create bytes @0x" ++ fmt_x (to_guint offset) ++ " for 0x" ++
        fmt_x (to_guint length) ++ " as buffer only 0x" ++ fmt_x (to_guint bytes.length) ++
        " bytes in size"⟩
  else
    .ok ((bytes.drop offset).take length)

/-- Modelled from the spec: the base-class driver `fu_firmware_parse_full`
(fu-firmware.c) around a variant's `parse`.  The Firmware is "populated by `parse`" from
the caller's bytes, of which "only a sub-range is retained" by a truncating variant and,
for a variant with "no truncation", all of them: the driver stores the input as the
payload and then runs the variant, which may replace it. -/
def fu_firmware_parse_full
    (klass_parse : FuFirmware → GBytes → Nat → Nat → Except GError Unit × FuFirmware)
    (firmware : FuFirmware) (fw : GBytes) (offset flags : Nat) :
    Except GError Unit × FuFirmware :=
  klass_parse (fu_firmware_set_bytes firmware fw) fw offset flags

/-! ## plugins/ep963x/fu-ep963x-firmware.c -/

/-- `fu_ep963x_firmware_parse`.  The constant `FU_EP963_FIRMWARE_SIZE` comes from a header
that is not among the sources and is a parameter. -/
def fu_ep963x_firmware_parse (FU_EP963_FIRMWARE_SIZE : Nat) (firmware : FuFirmware)
    (fw : GBytes) (_offset _flags : Nat) : Except GError Unit × FuFirmware :=
  let len := fw.length
  if len ≠ FU_EP963_FIRMWARE_SIZE then
    (.error ⟨.FWUPD_ERROR_INVALID_FILE,
      "firmware size expected 0x" ++ fmt_x (to_guint FU_EP963_FIRMWARE_SIZE) ++ ", got 0x" ++
        fmt_x (to_guint len)⟩, firmware)
  else
    (.ok (), firmware)

/-! ## plugins/genesys/fu-genesys-usbhub-pd-firmware.c -/

/-- What `fu_genesys_usbhub_pd_firmware_parse` takes from headers and sibling files that
are not among the sources: three constants, the type-name table, and the format's size
computation, checksum verifier and version extraction. -/
structure GenesysCollaborators where
  FU_GENESYS_FW_TYPE_PD : Nat
  fu_genesys_fw_type_to_string : Nat → Option String
  FU_FIRMWARE_ALIGNMENT_1K : Nat
  FWUPD_INSTALL_FLAG_IGNORE_CHECKSUM : Nat
  fu_genesys_usbhub_firmware_calculate_size : GBytes → Nat → Except GError Nat
  fu_genesys_usbhub_firmware_verify_checksum : GBytes → Except GError Unit
  extract_version : GBytes → Except GError String

/-- Modelled from the spec: `fu_genesys_usbhub_firmware_ensure_version`
(fu-genesys-usbhub-firmware.c), which must "extract any embedded version string/number
from the payload once the size is confirmed" and fill in the "derived metadata (e.g.,
version string)": it reads the stored payload and sets the version, nothing else. -/
def fu_genesys_usbhub_firmware_ensure_version (c : GenesysCollaborators)
    (firmware : FuFirmware) : Except GError Unit × FuFirmware :=
  match firmware.bytes with
  | none => (.error ⟨.OTHER 1, "no payload set"⟩, firmware)
  | some blob =>
    match c.extract_version blob with
    | .error e => (.error e, firmware)
    | .ok version => (.ok (), fu_firmware_set_version firmware version)

/-- `fu_genesys_usbhub_pd_firmware_parse`. -/
def fu_genesys_usbhub_pd_firmware_parse (c : GenesysCollaborators) (firmware : FuFirmware)
    (fw : GBytes) (offset flags : Nat) : Except GError Unit × FuFirmware :=
  let firmware1 :=
    fu_firmware_set_id firmware (c.fu_genesys_fw_type_to_string c.FU_GENESYS_FW_TYPE_PD)
  let firmware2 := fu_firmware_set_idx firmware1 c.FU_GENESYS_FW_TYPE_PD
  let firmware3 := fu_firmware_set_alignment firmware2 c.FU_FIRMWARE_ALIGNMENT_1K
  match c.fu_genesys_usbhub_firmware_calculate_size fw offset with
  | .error e => (.error (g_prefix_error "not valid for pd: " e), firmware3)
  | .ok code_size =>
    match fu_bytes_new_offset fw offset code_size with
    | .error e => (.error e, firmware3)
    | .ok fw_trunc =>
      let firmware4 := fu_firmware_set_bytes firmware3 fw_trunc
      let verified : Except GError Unit :=
        if flags &&& c.FWUPD_INSTALL_FLAG_IGNORE_CHECKSUM = 0 then
          c.fu_genesys_usbhub_firmware_verify_checksum fw_trunc
        else
          .ok ()
      match verified with
      | .error e => (.error (g_prefix_error "not valid for pd: " e), firmware4)
      | .ok () =>
        match fu_genesys_usbhub_firmware_ensure_version c firmware4 with
        | (.error e, firmware5) => (.error (g_prefix_error "not valid for pd: " e), firmware5)
        | (.ok (), firmware5) => (.ok (), firmware5)

/-- Modelled from the spec: `fu_firmware_new` (fu-firmware.c): a Firmware is "constructed
empty". -/
def fu_firmware_new : FuFirmware := ⟨none, 0, 0, none, none, 0⟩

/-- Sample collaborators for concrete runs: the computed size is the first byte of the
payload at `offset`, the checksum is valid when the last retained byte equals the 8-bit
sum of the others, and the version is the second byte, printed in hexadecimal. -/
def sample_collaborators : GenesysCollaborators where
  FU_GENESYS_FW_TYPE_PD := 3
  fu_genesys_fw_type_to_string := fun t => if t = 3 then some "pd" else none
  FU_FIRMWARE_ALIGNMENT_1K := 0x0A
  FWUPD_INSTALL_FLAG_IGNORE_CHECKSUM := 64
  fu_genesys_usbhub_firmware_calculate_size := fun fw offset =>
    match fw.drop offset with
    | [] => .error ⟨.OTHER 2, "no header"⟩
    | b :: _ => .ok b.val
  fu_genesys_usbhub_firmware_verify_checksum := fun fw =>
    if fu_sum8 fw (fw.length - 1) = byte_at fw (fw.length - 1) then .ok ()
    else .error ⟨.OTHER 3, "checksum mismatch"⟩
  extract_version := fun fw =>
    if fw.length < 2 then .error ⟨.OTHER 4, "no version"⟩ else .ok (fmt_x (byte_at fw 1))

/-! ## Theorems: the safe read -/

theorem gsize_to_goffset_small (n : Nat) (h : n < 2 ^ 63) : gsize_to_goffset n = (n : Int) := by
  have h1 : n % 2 ^ 64 = n := Nat.mod_eq_of_lt (by omega)
  unfold gsize_to_goffset
  rw [h1, if_pos h]

theorem g_seekable_seek_set_ok (s : GInputStream) (n : Nat) (h : n ≤ s.data.length) :
    g_seekable_seek s (n : Int) .G_SEEK_SET =
      (.ok (), { s with pos := n, log := s.log ++ [StreamOp.seek n .G_SEEK_SET] }) := by
  have h2 : ¬ ((s.data.length : Int) < (n : Int)) := by omega
  simp [g_seekable_seek, h2]

theorem g_input_stream_read_ok (s : GInputStream) (count : Nat) (h : count < 2 ^ 63) :
    g_input_stream_read s count =
      (.ok ((s.data.drop s.pos).take count),
        { s with pos := s.pos + ((s.data.drop s.pos).take count).length,
                 log := s.log ++ [StreamOp.read count] }) := by
  unfold g_input_stream_read
  by_cases h0 : count = 0
  · subst h0; simp
  · have h2 : ¬ (2 ^ 63 ≤ count) := by omega
    rw [if_neg h0, if_neg h2]

/-- The I/O result of a safe read that passes the bounds check and whose seek target lies
within the stream. -/
theorem read_safe_in_range (s : GInputStream) (buf : List Byte)
    (bufsz offset seek_set count : Nat) (hchk : offset + count ≤ bufsz)
    (hseek : seek_set ≤ s.data.length) (hlen : s.data.length < 2 ^ 63)
    (hcount : count < 2 ^ 63) :
    fu_input_stream_read_safe s buf bufsz offset seek_set count =
      ((if ((s.data.drop seek_set).take count).length ≠ count then
          .error ⟨.G_IO_ERROR_PARTIAL_INPUT,
            "requested 0x" ++ fmt_x (to_guint count) ++ " and got 0x" ++
              fmt_x (to_guint ((s.data.drop seek_set).take count).length)⟩
        else .ok ()),
       mem_store buf offset ((s.data.drop seek_set).take count),
       { s with pos := seek_set + ((s.data.drop seek_set).take count).length,
                log := s.log ++ [StreamOp.seek seek_set .G_SEEK_SET, StreamOp.read count] }) := by
  have hchk2 : ¬ (bufsz < offset + count) := by omega
  unfold fu_input_stream_read_safe
  simp only [fu_memchk_write, hchk2, if_false]
  rw [gsize_to_goffset_small seek_set (by omega), g_seekable_seek_set_ok s seek_set hseek]
  simp only []
  rw [g_input_stream_read_ok _ count hcount]
  simp only []
  split <;> simp_all


theorem length_take_drop_last (data : List Byte) (w : Nat) (hw : 1 ≤ w)
    (hS : 1 ≤ data.length) : ((data.drop (data.length - 1)).take w).length = 1 := by
  rw [List.length_take, List.length_drop]; omega

/-- C1: when `offset + count` (mathematical sum) exceeds `bufsz`, the safe read fails
with the out-of-range error and issues no I/O: buffer and stream (position and call log)
are returned unchanged. -/
theorem read_safe_out_of_range_no_io (stream : GInputStream) (buf : List Byte)
    (bufsz offset seek_set count : Nat) (h : bufsz < offset + count) :
    ∃ e, fu_input_stream_read_safe stream buf bufsz offset seek_set count =
        (.error e, buf, stream) ∧ e.code = GErrorCode.OUT_OF_RANGE := by
  unfold fu_input_stream_read_safe
  simp only [fu_memchk_write, h, if_true]
  exact ⟨_, rfl, rfl⟩

/-- The out-of-range failure at a call whose `offset + count` would wrap in 64 bits. -/
theorem read_safe_out_of_range_no_io_witness :
    4 < (2 ^ 64 - 1) + 2 ∧
    ∃ e, fu_input_stream_read_safe ⟨[1, 2, 3], 1, false, []⟩ [0, 0, 0, 0] 4 (2 ^ 64 - 1) 0 2 =
        (.error e, [0, 0, 0, 0], ⟨[1, 2, 3], 1, false, []⟩) ∧
      e.code = GErrorCode.OUT_OF_RANGE :=
  ⟨by decide, read_safe_out_of_range_no_io _ _ _ _ _ _ (by decide)⟩

/-- C2: on a stream of size `S ≥ 1`, each reader of width `w > 1` (u16, u24, u32, u64, in
either byte order) called at offset `S - 1` fails with `G_IO_ERROR_PARTIAL_INPUT`,
message "requested 0x<w> and got 0x1", and leaves the out-value as it was. -/
theorem read_fixed_width_at_last_byte (stream : GInputStream) (value : Option Nat)
    (endian : FuEndianType) (hS : 1 ≤ stream.data.length)
    (hmax : stream.data.length < 2 ^ 63) :
    ((fu_input_stream_read_u16 stream (stream.data.length - 1) value endian).1 =
        .error ⟨.G_IO_ERROR_PARTIAL_INPUT, "requested 0x2 and got 0x1"⟩ ∧
      (fu_input_stream_read_u16 stream (stream.data.length - 1) value endian).2.1 = value) ∧
    ((fu_input_stream_read_u24 stream (stream.data.length - 1) value endian).1 =
        .error ⟨.G_IO_ERROR_PARTIAL_INPUT, "requested 0x3 and got 0x1"⟩ ∧
      (fu_input_stream_read_u24 stream (stream.data.length - 1) value endian).2.1 = value) ∧
    ((fu_input_stream_read_u32 stream (stream.data.length - 1) value endian).1 =
        .error ⟨.G_IO_ERROR_PARTIAL_INPUT, "requested 0x4 and got 0x1"⟩ ∧
      (fu_input_stream_read_u32 stream (stream.data.length - 1) value endian).2.1 = value) ∧
    ((fu_input_stream_read_u64 stream (stream.data.length - 1) value endian).1 =
        .error ⟨.G_IO_ERROR_PARTIAL_INPUT, "requested 0x8 and got 0x1"⟩ ∧
      (fu_input_stream_read_u64 stream (stream.data.length - 1) value endian).2.1 = value) := by
  have hseek : stream.data.length - 1 ≤ stream.data.length := Nat.sub_le _ _
  refine ⟨?_, ?_, ?_, ?_⟩
  · unfold fu_input_stream_read_u16
    dsimp only
    rw [read_safe_in_range stream _ 2 0 _ 2 (by omega) hseek hmax (by norm_num),
      length_take_drop_last stream.data 2 (by omega) hS]
    rw [if_pos (by decide)]
    exact ⟨rfl, rfl⟩
  · unfold fu_input_stream_read_u24
    dsimp only
    rw [read_safe_in_range stream _ 3 0 _ 3 (by omega) hseek hmax (by norm_num),
      length_take_drop_last stream.data 3 (by omega) hS]
    rw [if_pos (by decide)]
    exact ⟨rfl, rfl⟩
  · unfold fu_input_stream_read_u32
    dsimp only
    rw [read_safe_in_range stream _ 4 0 _ 4 (by omega) hseek hmax (by norm_num),
      length_take_drop_last stream.data 4 (by omega) hS]
    rw [if_pos (by decide)]
    exact ⟨rfl, rfl⟩
  · unfold fu_input_stream_read_u64
    dsimp only
    rw [read_safe_in_range stream _ 8 0 _ 8 (by omega) hseek hmax (by norm_num),
      length_take_drop_last stream.data 8 (by omega) hS]
    rw [if_pos (by decide)]
    exact ⟨rfl, rfl⟩

/-- A 32-bit read at the last byte of a three-byte stream. -/
theorem read_fixed_width_at_last_byte_witness :
    (1 ≤ (⟨[1, 2, 3], 0, false, []⟩ : GInputStream).data.length ∧
      (⟨[1, 2, 3], 0, false, []⟩ : GInputStream).data.length < 2 ^ 63) ∧
    (fu_input_stream_read_u32 ⟨[1, 2, 3], 0, false, []⟩ 2 (some 7) .G_LITTLE_ENDIAN).1 =
        .error ⟨.G_IO_ERROR_PARTIAL_INPUT, "requested 0x4 and got 0x1"⟩ ∧
    (fu_input_stream_read_u32 ⟨[1, 2, 3], 0, false, []⟩ 2 (some 7) .G_LITTLE_ENDIAN).2.1 =
        some 7 :=
  ⟨by decide,
    (read_fixed_width_at_last_byte ⟨[1, 2, 3], 0, false, []⟩ (some 7) .G_LITTLE_ENDIAN
      (by decide) (by decide)).2.2.1⟩


/-! ## Theorems: fixed-width round trip -/

theorem byte_val_ofNat (x : Nat) : ((Fin.ofNat x : Byte) : Nat) = x % 256 := rfl

theorem fu_memread_uint32_memwrite (V : Nat) (endian : FuEndianType) (hV : V < 2 ^ 32) :
    fu_memread_uint32 (fu_memwrite_uint32 V endian) endian = V := by
  cases endian <;>
    simp only [fu_memread_uint32, fu_memwrite_uint32, byte_at, List.getD_cons_zero,
      List.getD_cons_succ, byte_val_ofNat] <;> omega

theorem mem_store_full (buf bytes : List Byte) (h : buf.length = bytes.length) :
    mem_store buf 0 bytes = bytes := by
  simp [mem_store, ← h]

/-- C3: if the four stream bytes at offset `o` (with `o + 4 ≤ size`) are the encoding of
the 32-bit value `V` in byte order `endian` (little or big), then
`fu_input_stream_read_u32` at `o` with that byte order succeeds and stores exactly `V`. -/
theorem read_u32_round_trip (stream : GInputStream) (V o v0 : Nat) (endian : FuEndianType)
    (hV : V < 2 ^ 32) (ho : o + 4 ≤ stream.data.length) (hmax : stream.data.length < 2 ^ 63)
    (henc : (stream.data.drop o).take 4 = fu_memwrite_uint32 V endian) :
    (fu_input_stream_read_u32 stream o (some v0) endian).1 = .ok () ∧
      (fu_input_stream_read_u32 stream o (some v0) endian).2.1 = some V := by
  have hlen : (fu_memwrite_uint32 V endian).length = 4 := by cases endian <;> rfl
  unfold fu_input_stream_read_u32
  dsimp only
  rw [read_safe_in_range stream _ 4 0 o 4 (by omega) (by omega) hmax (by norm_num), henc, hlen,
    if_neg (by decide), mem_store_full _ _ (by rw [hlen]; rfl)]
  exact ⟨rfl, by simp [fu_memread_uint32_memwrite V endian hV]⟩

/-- The value `0x11223344`, little endian, read back at offset 1. -/
theorem read_u32_round_trip_witness :
    (0x11223344 < 2 ^ 32 ∧
      1 + 4 ≤ (⟨[9, 0x44, 0x33, 0x22, 0x11, 8], 0, false, []⟩ : GInputStream).data.length ∧
      (⟨[9, 0x44, 0x33, 0x22, 0x11, 8], 0, false, []⟩ : GInputStream).data.length < 2 ^ 63 ∧
      ((⟨[9, 0x44, 0x33, 0x22, 0x11, 8], 0, false, []⟩ : GInputStream).data.drop 1).take 4 =
        fu_memwrite_uint32 0x11223344 .G_LITTLE_ENDIAN) ∧
    (fu_input_stream_read_u32 ⟨[9, 0x44, 0x33, 0x22, 0x11, 8], 0, false, []⟩ 1 (some 0)
        .G_LITTLE_ENDIAN).1 = .ok () ∧
    (fu_input_stream_read_u32 ⟨[9, 0x44, 0x33, 0x22, 0x11, 8], 0, false, []⟩ 1 (some 0)
        .G_LITTLE_ENDIAN).2.1 = some 0x11223344 :=
  ⟨by decide,
    read_u32_round_trip ⟨[9, 0x44, 0x33, 0x22, 0x11, 8], 0, false, []⟩ 0x11223344 1 0
      .G_LITTLE_ENDIAN (by decide) (by decide) (by decide) (by decide)⟩


/-! ## Theorems: buffer reads -/

/-- What a successful safe read implies: the bounds check passed, the seek target is a
valid `goffset`, the stream held `count` bytes there, and they were stored at `offset`. -/
theorem read_safe_ok_inv (s : GInputStream) (buf : List Byte)
    (bufsz offset seek_set count : Nat) (buf1 : List Byte) (s1 : GInputStream)
    (hss : seek_set < 2 ^ 64)
    (h : fu_input_stream_read_safe s buf bufsz offset seek_set count = (.ok (), buf1, s1)) :
    offset + count ≤ bufsz ∧ seek_set < 2 ^ 63 ∧
      ((s.data.drop seek_set).take count).length = count ∧
      buf1 = mem_store buf offset ((s.data.drop seek_set).take count) ∧
      s1.pos = seek_set + count := by
  unfold fu_input_stream_read_safe at h
  by_cases hchk : bufsz < offset + count
  · simp [fu_memchk_write, hchk] at h
  · simp only [fu_memchk_write, hchk, if_false] at h
    by_cases hs : seek_set < 2 ^ 63
    · rw [gsize_to_goffset_small seek_set hs] at h
      unfold g_seekable_seek at h
      dsimp only at h
      by_cases hbad : ((0 : Int) + (seek_set : Int) < 0 ∨
          (s.seek_past_end = false ∧ (s.data.length : Int) < 0 + (seek_set : Int)))
      · rw [if_pos hbad] at h
        simp at h
      · rw [if_neg hbad] at h
        dsimp only at h
        unfold g_input_stream_read at h
        dsimp only at h
        simp only [Int.zero_add, Int.toNat_ofNat] at h
        by_cases h0 : count = 0
        · subst h0
          rw [if_pos rfl] at h
          simp only [List.length_nil, ne_eq, not_true_eq_false, if_false, Prod.mk.injEq,
            true_and] at h
          obtain ⟨hb, hs1⟩ := h
          subst hs1
          exact ⟨by omega, hs, by simp, by simp [hb.symm], rfl⟩
        · rw [if_neg h0] at h
          by_cases hbig : 2 ^ 63 ≤ count
          · rw [if_pos hbig] at h
            simp at h
          · rw [if_neg hbig] at h
            dsimp only at h
            by_cases hl : (List.take count (List.drop seek_set s.data)).length = count
            · rw [if_neg (not_not.mpr hl)] at h
              simp only [Prod.mk.injEq, true_and] at h
              obtain ⟨hb, hs1⟩ := h
              subst hs1
              exact ⟨by omega, hs, hl, hb.symm, by simp only [hl]⟩
            · rw [if_pos hl] at h
              simp at h
    · exfalso
      have hneg : gsize_to_goffset seek_set < 0 := by
        unfold gsize_to_goffset
        have h1 : seek_set % 2 ^ 64 = seek_set := Nat.mod_eq_of_lt hss
        rw [h1, if_neg hs]
        omega
      unfold g_seekable_seek at h
      dsimp only at h
      rw [if_pos (Or.inl (by omega))] at h
      simp at h


theorem g_byte_array_set_size_new (length : Nat) :
    g_byte_array_set_size (g_byte_array_sized_new length) length =
      ⟨List.replicate (to_guint length) 0, decide (to_guint length ≠ 0)⟩ := by
  by_cases h : to_guint length = 0
  · simp [g_byte_array_set_size, g_byte_array_sized_new, h]
  · have hpos : 0 < to_guint length := Nat.pos_of_ne_zero h
    simp [g_byte_array_set_size, g_byte_array_sized_new, h, hpos]

/-- A buffer read whose length is not 0 as a `guint` is the safe read into a zeroed
buffer of that many bytes. -/
theorem read_buf_nonzero (s : GInputStream) (offset length : Nat)
    (h : to_guint length ≠ 0) :
    fu_input_stream_read_buf s offset length =
      match fu_input_stream_read_safe s (List.replicate (to_guint length) 0)
          (to_guint length) 0 offset (to_guint length) with
      | (.error e, _, stream1) => (.error e, stream1)
      | (.ok (), buf1, stream1) => (.ok buf1, stream1) := by
  unfold fu_input_stream_read_buf
  rw [g_byte_array_set_size_new]
  simp only [GByteArray.data, GByteArray.len, h, ne_eq, not_false_eq_true, decide_True,
    if_true, List.length_replicate, fu_input_stream_read_safe_nullable]
  generalize fu_input_stream_read_safe s (List.replicate (to_guint length) 0)
    (to_guint length) 0 offset (to_guint length) = r
  obtain ⟨ret, b1, s1⟩ := r
  cases ret with
  | error e => rfl
  | ok u => rfl

/-- A buffer read whose length is 0 as a `guint` passes a `NULL` data pointer and is
stopped by the guard of the safe read: failure, no error set, no I/O. -/
theorem read_buf_null (s : GInputStream) (offset length : Nat) (h : to_guint length = 0) :
    fu_input_stream_read_buf s offset length =
      (.error ⟨.NO_ERROR_SET, "fu_input_stream_read_safe: assertion 'buf != NULL' failed"⟩,
        s) := by
  unfold fu_input_stream_read_buf
  rw [g_byte_array_set_size_new]
  simp [GByteArray.data, GByteArray.len, h, fu_input_stream_read_safe_nullable]

/-- A buffer read of at least one and fewer than `2 ^ 32` bytes that lie within the
stream succeeds and returns exactly those bytes. -/
theorem read_buf_in_range (s : GInputStream) (offset length : Nat) (hpos : 0 < length)
    (hlen : length < 2 ^ 32)
    (hin : offset + length ≤ s.data.length) (hmax : s.data.length < 2 ^ 63) :
    fu_input_stream_read_buf s offset length =
      (.ok ((s.data.drop offset).take length),
        { s with pos := offset + length,
                 log := s.log ++ [StreamOp.seek offset .G_SEEK_SET, StreamOp.read length] }) := by
  have hg : to_guint length = length := Nat.mod_eq_of_lt hlen
  have htl : ((s.data.drop offset).take length).length = length := by
    rw [List.length_take, List.length_drop]; omega
  rw [read_buf_nonzero s offset length (by rw [hg]; omega), hg,
    read_safe_in_range s _ length 0 offset length (by omega) (by omega) hmax (by omega), htl,
    if_neg (by simp)]
  dsimp only
  rw [mem_store_full _ _ (by rw [List.length_replicate, htl])]

theorem read_bytes_in_range (s : GInputStream) (offset length : Nat) (hpos : 0 < length)
    (hlen : length < 2 ^ 32)
    (hin : offset + length ≤ s.data.length) (hmax : s.data.length < 2 ^ 63) :
    fu_input_stream_read_bytes s offset length =
      (.ok ((s.data.drop offset).take length),
        { s with pos := offset + length,
                 log := s.log ++ [StreamOp.seek offset .G_SEEK_SET, StreamOp.read length] }) := by
  unfold fu_input_stream_read_bytes
  rw [read_buf_in_range s offset length hpos hlen hin hmax]

/-- A successful buffer read of fewer than `2 ^ 32` bytes returns exactly `length` bytes,
the stream bytes at `[offset, offset + length)`. -/
theorem read_buf_ok_small (s : GInputStream) (offset length : Nat) (buf : List Byte)
    (s1 : GInputStream) (hoff : offset < 2 ^ 64) (hlen : length < 2 ^ 32)
    (h : fu_input_stream_read_buf s offset length = (.ok buf, s1)) :
    buf.length = length ∧ buf = (s.data.drop offset).take length := by
  have hg : to_guint length = length := Nat.mod_eq_of_lt hlen
  have hnz : to_guint length ≠ 0 := by
    intro h0
    rw [read_buf_null s offset length h0] at h
    simp at h
  rw [read_buf_nonzero s offset length hnz, hg] at h
  generalize hr : fu_input_stream_read_safe s (List.replicate length 0) length 0 offset length = r
    at h
  obtain ⟨ret, buf1, s2⟩ := r
  cases ret with
  | error e => simp at h
  | ok u =>
    simp only [Prod.mk.injEq, Except.ok.injEq] at h
    obtain ⟨hb, _⟩ := h
    obtain ⟨_, _, hl, hb1, _⟩ := read_safe_ok_inv s _ length 0 offset length buf1 s2 hoff hr
    rw [mem_store_full _ _ (by rw [List.length_replicate, hl])] at hb1
    subst hb hb1
    exact ⟨hl, rfl⟩

/-- C4 (evaluation at the failing input): a request for `2 ^ 32 + 2` bytes on a
three-byte stream succeeds and returns a two-byte buffer, because the requested length is
cut to a `guint` when the byte array is sized. -/
theorem read_buf_length_cut_to_guint :
    (fu_input_stream_read_buf ⟨[1, 2, 3], 0, false, []⟩ 1 (2 ^ 32 + 2)).1 = .ok [2, 3] ∧
      ([2, 3] : List Byte).length ≠ 2 ^ 32 + 2 := by
  decide


/-! ## Theorems: chunked folds -/

theorem size_ok (s : GInputStream) (v : Nat) :
    fu_input_stream_size s (some v) =
      (.ok (), some s.data.length,
        { s with pos := s.data.length, log := s.log ++ [StreamOp.seek 0 .G_SEEK_END] }) := by
  have h : ¬ ((s.data.length : Int) < 0) := by omega
  simp [fu_input_stream_size, g_seekable_seek, g_seekable_tell, h]

theorem chunk_array_new_ok (s : GInputStream) (addr_offset packet_sz : Nat) :
    fu_chunk_array_new_from_stream s addr_offset packet_sz =
      (.ok ⟨addr_offset, packet_sz, s.data.length⟩,
        { s with pos := s.data.length, log := s.log ++ [StreamOp.seek 0 .G_SEEK_END] }) := by
  unfold fu_chunk_array_new_from_stream
  rw [size_ok]
  rfl

theorem take_min_length (l : List Byte) (p : Nat) : l.take (min p l.length) = l.take p := by
  rcases Nat.le_total p l.length with h | h
  · rw [Nat.min_eq_left h]
  · rw [Nat.min_eq_right h, List.take_length, List.take_of_length_le h]

/-- Looking up a window that starts inside the stream succeeds, returns that window and
leaves the stream content alone. -/
theorem chunk_array_index_ok (s : GInputStream) (a p i : Nat) (hp0 : 0 < p)
    (hp : p < 2 ^ 32)
    (hi : i * p < s.data.length) (hmax : s.data.length < 2 ^ 63) :
    ∃ s1, fu_chunk_array_index ⟨a, p, s.data.length⟩ s i =
        (.ok ⟨i, a + i * p, window_at s.data p i⟩, s1) ∧ s1.data = s.data := by
  have h : fu_chunk_array_index ⟨a, p, s.data.length⟩ s i =
      (.ok ⟨i, a + i * p, window_at s.data p i⟩,
        { s with pos := i * p + min p (s.data.length - i * p),
                 log := s.log ++ [StreamOp.seek (i * p : Nat) .G_SEEK_SET,
                   StreamOp.read (min p (s.data.length - i * p))] }) := by
    unfold fu_chunk_array_index
    dsimp only
    rw [if_neg (by omega),
      read_bytes_in_range s (i * p) (min p (s.data.length - i * p)) (by omega) (by omega)
        (by omega) hmax]
    dsimp only
    rw [← List.length_drop, take_min_length]
    rfl
  exact ⟨_, h, rfl⟩

/-- The loop of `fu_input_stream_chunkify` over windows that all start inside the stream
is the fold of the callback over those windows, in index order. -/
theorem chunkify_loop_eq_fold {α : Type} (data : List Byte) (a p : Nat)
    (func_cb : List Byte → Nat → α → Except GError Unit × α) (hp0 : 0 < p)
    (hp : p < 2 ^ 32) (hmax : data.length < 2 ^ 63) :
    ∀ (n i : Nat) (u : α) (s : GInputStream), s.data = data →
      (n = 0 ∨ (i + n - 1) * p < data.length) →
      ∃ s1, fu_input_stream_chunkify_loop ⟨a, p, data.length⟩ func_cb n i u s =
          ((fold_cb func_cb ((List.range' i n).map (window_at data p)) u).1,
            (fold_cb func_cb ((List.range' i n).map (window_at data p)) u).2, s1) ∧
        s1.data = data := by
  intro n
  induction n with
  | zero =>
    intro i u s hs _
    exact ⟨s, rfl, hs⟩
  | succ n ih =>
    intro i u s hs hb
    have hb1 : (i + n) * p < data.length := by
      rcases hb with h | h
      · omega
      · simpa using h
    have hi : i * p < s.data.length := by
      rw [hs]
      exact lt_of_le_of_lt (Nat.mul_le_mul_right p (Nat.le_add_right i n)) hb1
    obtain ⟨s1, hidx, hs1⟩ :=
      chunk_array_index_ok s a p i hp0 hp hi (by rw [hs]; exact hmax)
    rw [hs] at hidx
    unfold fu_input_stream_chunkify_loop
    rw [hidx]
    simp only [List.range'_succ, List.map_cons, fold_cb, fu_chunk_get_data,
      fu_chunk_get_data_sz]
    rw [hs] at hs1
    generalize func_cb (window_at data p i) (window_at data p i).length u = r
    obtain ⟨ret, u1⟩ := r
    cases ret with
    | error e => exact ⟨s1, rfl, hs1⟩
    | ok v =>
      have hb2 : n = 0 ∨ (i + 1 + n - 1) * p < data.length := by
        rcases Nat.eq_zero_or_pos n with h | h
        · exact Or.inl h
        · right
          have : i + 1 + n - 1 = i + n := by omega
          rw [this]; exact hb1
      obtain ⟨s2, h2, hs2⟩ := ih (i + 1) u1 s1 hs1 hb2
      exact ⟨s2, h2, hs2⟩


/-- On a stream of valid size, chunkify is the fold of the callback over the windows of
`0x8000` bytes, window `i` starting at `0x8000 * i`, for `i` below the rounded-up
quotient of the size by `0x8000`. -/
theorem chunkify_eq_fold {α : Type} (s : GInputStream)
    (func_cb : List Byte → Nat → α → Except GError Unit × α) (u : α)
    (hmax : s.data.length < 2 ^ 63) :
    ∃ s1, fu_input_stream_chunkify s func_cb u =
      ((fold_cb func_cb
          ((List.range ((s.data.length + 0x7fff) / 0x8000)).map (window_at s.data 0x8000)) u).1,
        (fold_cb func_cb
          ((List.range ((s.data.length + 0x7fff) / 0x8000)).map (window_at s.data 0x8000)) u).2,
        s1) := by
  unfold fu_input_stream_chunkify
  rw [chunk_array_new_ok]
  dsimp only
  have hN : fu_chunk_array_length ⟨0, 0x8000, s.data.length⟩ =
      (s.data.length + 0x7fff) / 0x8000 := by
    simp only [fu_chunk_array_length]
    omega
  rw [hN]
  obtain ⟨s1, h, _⟩ := chunkify_loop_eq_fold s.data 0 0x8000 func_cb (by norm_num)
    (by norm_num) hmax
    ((s.data.length + 0x7fff) / 0x8000) 0 u
    { s with pos := s.data.length, log := s.log ++ [StreamOp.seek 0 .G_SEEK_END] } rfl
    (by omega)
  rw [List.range_eq_range']
  exact ⟨s1, h⟩

theorem fold_cb_record (ws : List (List Byte)) (u : List (List Byte)) :
    fold_cb record_cb ws u = (.ok (), u ++ ws) := by
  induction ws generalizing u with
  | nil => simp [fold_cb]
  | cons w ws ih => simp [fold_cb, record_cb, ih]

theorem windows_join_take (data : List Byte) (p n : Nat) :
    ((List.range n).map (window_at data p)).flatten = data.take (n * p) := by
  induction n with
  | zero => simp
  | succ n ih =>
    rw [List.range_succ, List.map_append, List.flatten_append, ih, Nat.succ_mul, List.take_add]
    simp [window_at]

theorem window_at_length (data : List Byte) (p i : Nat) :
    (window_at data p i).length = min p (data.length - i * p) := by
  simp [window_at]


/-- C5: chunkify with the recording callback succeeds; the callback is called once per
window, `ceil(S / 0x8000)` times in all, window `i` being the stream bytes from
`0x8000 * i` on (ascending, disjoint ranges); every window but the last has `0x8000`
bytes, the last has `S - 0x8000 * (n - 1)` bytes, between 1 and `0x8000`; the windows
concatenated are the whole stream; and for `S = 0x10001` the lengths are
`0x8000, 0x8000, 0x1`. -/
theorem chunkify_partitions_stream (stream : GInputStream)
    (hmax : stream.data.length < 2 ^ 63) :
    ∃ windows s1,
      fu_input_stream_chunkify stream record_cb [] = (.ok (), windows, s1) ∧
      windows.length = (stream.data.length + 0x7fff) / 0x8000 ∧
      (stream.data.length ≤ 0x8000 * windows.length ∧
        0x8000 * windows.length < stream.data.length + 0x8000) ∧
      (∀ i, i < windows.length →
        windows.getD i [] = (stream.data.drop (0x8000 * i)).take 0x8000) ∧
      (∀ i, i + 1 < windows.length → (windows.getD i []).length = 0x8000) ∧
      (0 < windows.length →
        (windows.getD (windows.length - 1) []).length =
            stream.data.length - 0x8000 * (windows.length - 1) ∧
          1 ≤ (windows.getD (windows.length - 1) []).length ∧
          (windows.getD (windows.length - 1) []).length ≤ 0x8000) ∧
      windows.flatten = stream.data ∧
      (stream.data.length = 0x10001 → windows.map List.length = [0x8000, 0x8000, 0x1]) := by
  obtain ⟨s1, h⟩ := chunkify_eq_fold stream record_cb [] hmax
  rw [fold_cb_record] at h
  simp only [List.nil_append] at h
  have hget : ∀ i, i < (stream.data.length + 0x7fff) / 0x8000 →
      ((List.range ((stream.data.length + 0x7fff) / 0x8000)).map
        (window_at stream.data 0x8000)).getD i [] = window_at stream.data 0x8000 i := by
    intro i hi
    rw [List.getD_eq_getElem _ _ (by simpa using hi)]
    simp
  refine ⟨_, s1, h, by simp, ?_, ?_, ?_, ?_, ?_, ?_⟩
  · simp only [List.length_map, List.length_range]
    omega
  · intro i hi
    simp only [List.length_map, List.length_range] at hi
    rw [hget i hi, window_at, Nat.mul_comm]
  · intro i hi
    simp only [List.length_map, List.length_range] at hi
    rw [hget i (by omega), window_at_length]
    omega
  · intro hpos
    simp only [List.length_map, List.length_range] at hpos ⊢
    rw [hget _ (by omega), window_at_length]
    omega
  · rw [windows_join_take, List.take_of_length_le (by omega)]
  · intro hS
    rw [hS]
    have h3 : (0x10001 + 0x7fff) / 0x8000 = 3 := by norm_num
    rw [h3]
    simp only [List.range_succ, List.range_zero, List.nil_append, List.cons_append,
      List.map_cons, List.map_nil, window_at_length, hS]
    norm_num

theorem foldl_sum8_mod (buf : List Byte) (acc : Nat) :
    (buf.foldl (fun checksum b => (checksum + b.val) % 256) acc) % 256 =
      (acc + (buf.map Fin.val).sum) % 256 := by
  induction buf generalizing acc with
  | nil => simp
  | cons b bs ih =>
    simp only [List.foldl_cons, List.map_cons, List.sum_cons]
    rw [ih]
    omega

theorem fu_sum8_full (buf : List Byte) :
    fu_sum8 buf buf.length % 256 = (buf.map Fin.val).sum % 256 := by
  unfold fu_sum8
  rw [List.take_length, foldl_sum8_mod]
  simp

theorem fold_cb_sum8 (ws : List (List Byte)) (u : Nat) (hu : u < 256) :
    fold_cb fu_input_stream_compute_sum8_cb ws u =
      (.ok (), (u + (ws.flatten.map Fin.val).sum) % 256) := by
  induction ws generalizing u with
  | nil => simp [fold_cb, Nat.mod_eq_of_lt hu]
  | cons w ws ih =>
    simp only [fold_cb, fu_input_stream_compute_sum8_cb]
    rw [ih _ (Nat.mod_lt _ (by norm_num))]
    have h := fu_sum8_full w
    simp only [List.flatten_cons, List.map_append, List.sum_append]
    congr 1
    omega

/-- C6: with the accumulator starting at 0, `fu_input_stream_compute_sum8` succeeds and
leaves the sum of all stream bytes modulo 256, whatever the number of `0x8000`-byte
chunks; for a stream of `N` bytes all equal to 1 that is `N mod 256`. -/
theorem compute_sum8_is_sum_mod_256 (stream : GInputStream)
    (hmax : stream.data.length < 2 ^ 63) :
    (fu_input_stream_compute_sum8 stream 0).1 = .ok () ∧
      (fu_input_stream_compute_sum8 stream 0).2.1 = (stream.data.map Fin.val).sum % 256 ∧
      (∀ N, stream.data = List.replicate N 1 →
        (fu_input_stream_compute_sum8 stream 0).2.1 = N % 256) := by
  obtain ⟨s1, h⟩ := chunkify_eq_fold stream fu_input_stream_compute_sum8_cb 0 hmax
  rw [fold_cb_sum8 _ 0 (by norm_num), windows_join_take,
    List.take_of_length_le (by omega)] at h
  simp only [Nat.zero_add] at h
  unfold fu_input_stream_compute_sum8
  rw [h]
  refine ⟨rfl, rfl, ?_⟩
  intro N hN
  simp [hN]


/-- A stream of `0x10001` bytes: three windows of `0x8000`, `0x8000` and `0x1` bytes. -/
theorem chunkify_partitions_stream_witness :
    (⟨List.replicate 0x10001 1, 0, false, []⟩ : GInputStream).data.length < 2 ^ 63 ∧
    ∃ windows s1,
      fu_input_stream_chunkify ⟨List.replicate 0x10001 1, 0, false, []⟩ record_cb [] =
        (.ok (), windows, s1) ∧
      windows.map List.length = [0x8000, 0x8000, 0x1] ∧
      windows.flatten = List.replicate 0x10001 1 := by
  have hlen : (⟨List.replicate 0x10001 1, 0, false, []⟩ : GInputStream).data.length =
      0x10001 := List.length_replicate _ _
  have hmax : (⟨List.replicate 0x10001 1, 0, false, []⟩ : GInputStream).data.length <
      2 ^ 63 := by rw [hlen]; norm_num
  obtain ⟨windows, s1, h, -, -, -, -, -, hj, h3⟩ :=
    chunkify_partitions_stream ⟨List.replicate 0x10001 1, 0, false, []⟩ hmax
  exact ⟨hmax, windows, s1, h, h3 hlen, hj⟩

/-- A stream of `0x10001` bytes all equal to 1 sums to `0x10001 mod 256 = 1`. -/
theorem compute_sum8_is_sum_mod_256_witness :
    (⟨List.replicate 0x10001 1, 7, false, []⟩ : GInputStream).data.length < 2 ^ 63 ∧
    (fu_input_stream_compute_sum8 ⟨List.replicate 0x10001 1, 7, false, []⟩ 0).1 = .ok () ∧
    (fu_input_stream_compute_sum8 ⟨List.replicate 0x10001 1, 7, false, []⟩ 0).2.1 = 1 := by
  have hlen : (⟨List.replicate 0x10001 1, 7, false, []⟩ : GInputStream).data.length =
      0x10001 := List.length_replicate _ _
  have hmax : (⟨List.replicate 0x10001 1, 7, false, []⟩ : GInputStream).data.length <
      2 ^ 63 := by rw [hlen]; norm_num
  have h := compute_sum8_is_sum_mod_256 ⟨List.replicate 0x10001 1, 7, false, []⟩ hmax
  exact ⟨hmax, h.1, by rw [h.2.2 0x10001 rfl]⟩


/-! ## Theorems: the fixed-size variant -/

/-- `fu_ep963x_firmware_parse` as one case split on the payload length. -/
theorem ep963x_parse_eq (FU_EP963_FIRMWARE_SIZE : Nat) (firmware : FuFirmware)
    (fw : GBytes) (offset flags : Nat) :
    fu_ep963x_firmware_parse FU_EP963_FIRMWARE_SIZE firmware fw offset flags =
      if fw.length = FU_EP963_FIRMWARE_SIZE then (.ok (), firmware)
      else (.error ⟨.FWUPD_ERROR_INVALID_FILE,
        "firmware size expected 0x" ++ fmt_x (FU_EP963_FIRMWARE_SIZE % 2 ^ 32) ++
          ", got 0x" ++ fmt_x (fw.length % 2 ^ 32)⟩, firmware) := by
  unfold fu_ep963x_firmware_parse
  by_cases h : fw.length = FU_EP963_FIRMWARE_SIZE
  · simp [h]
  · simp [h, to_guint]

/-- C7 (as amended): `fu_ep963x_firmware_parse` succeeds exactly when the payload length
`L` equals `FU_EP963_FIRMWARE_SIZE`; otherwise it fails with `FWUPD_ERROR_INVALID_FILE`,
leaves the firmware alone, and its message gives the expected constant and `L`, each cut
to 32 bits by the `(guint)` cast, so `L` itself whenever `L < 2 ^ 32`. -/
theorem ep963x_parse_size_check (FU_EP963_FIRMWARE_SIZE : Nat) (firmware : FuFirmware)
    (fw : GBytes) (offset flags : Nat) :
    ((fu_ep963x_firmware_parse FU_EP963_FIRMWARE_SIZE firmware fw offset flags).1 = .ok () ↔
        fw.length = FU_EP963_FIRMWARE_SIZE) ∧
      (fw.length ≠ FU_EP963_FIRMWARE_SIZE →
        fu_ep963x_firmware_parse FU_EP963_FIRMWARE_SIZE firmware fw offset flags =
          (.error ⟨.FWUPD_ERROR_INVALID_FILE,
            "firmware size expected 0x" ++ fmt_x (FU_EP963_FIRMWARE_SIZE % 2 ^ 32) ++
              ", got 0x" ++ fmt_x (fw.length % 2 ^ 32)⟩, firmware)) ∧
      (fw.length ≠ FU_EP963_FIRMWARE_SIZE → FU_EP963_FIRMWARE_SIZE < 2 ^ 32 →
        fw.length < 2 ^ 32 →
        (fu_ep963x_firmware_parse FU_EP963_FIRMWARE_SIZE firmware fw offset flags).1 =
          .error ⟨.FWUPD_ERROR_INVALID_FILE,
            "firmware size expected 0x" ++ fmt_x FU_EP963_FIRMWARE_SIZE ++ ", got 0x" ++
              fmt_x fw.length⟩) := by
  rw [ep963x_parse_eq]
  refine ⟨?_, ?_, ?_⟩
  · by_cases h : fw.length = FU_EP963_FIRMWARE_SIZE
    · simp [h]
    · simp [h]
  · intro h
    rw [if_neg h]
  · intro h h1 h2
    rw [if_neg h, Nat.mod_eq_of_lt h1, Nat.mod_eq_of_lt h2]

/-- C7 (counterexample to the claim as stated): with the constant `0x1f000`, a payload of
`2 ^ 32 + 1` bytes is rejected with the message "firmware size expected 0x1f000, got
0x1": the message does not give its length `0x100000001`, it is the very message a
one-byte payload gets. -/
theorem ep963x_parse_message_cuts_length :
    fu_ep963x_firmware_parse 0x1f000 fu_firmware_new (List.replicate (2 ^ 32 + 1) 0) 0 0 =
        (.error ⟨.FWUPD_ERROR_INVALID_FILE, "firmware size expected 0x1f000, got 0x1"⟩,
          fu_firmware_new) ∧
      (List.replicate (2 ^ 32 + 1) (0 : Byte)).length = 2 ^ 32 + 1 ∧
      fu_ep963x_firmware_parse 0x1f000 fu_firmware_new [0] 0 0 =
        (.error ⟨.FWUPD_ERROR_INVALID_FILE, "firmware size expected 0x1f000, got 0x1"⟩,
          fu_firmware_new) := by
  refine ⟨?_, List.length_replicate _ _, by decide⟩
  rw [ep963x_parse_eq, List.length_replicate, if_neg (by decide)]
  decide

/-- C8: when the payload length equals `FU_EP963_FIRMWARE_SIZE`, the variant's parse
succeeds, and the parse driven through the base class succeeds with the whole input as
the stored payload, whose length is the constant. -/
theorem ep963x_parse_exact_size (FU_EP963_FIRMWARE_SIZE : Nat) (firmware : FuFirmware)
    (fw : GBytes) (offset flags : Nat) (h : fw.length = FU_EP963_FIRMWARE_SIZE) :
    (fu_ep963x_firmware_parse FU_EP963_FIRMWARE_SIZE firmware fw offset flags).1 = .ok () ∧
      (fu_firmware_parse_full (fu_ep963x_firmware_parse FU_EP963_FIRMWARE_SIZE) firmware fw
        offset flags).1 = .ok () ∧
      (fu_firmware_parse_full (fu_ep963x_firmware_parse FU_EP963_FIRMWARE_SIZE) firmware fw
        offset flags).2.bytes = some fw ∧
      ((fu_firmware_parse_full (fu_ep963x_firmware_parse FU_EP963_FIRMWARE_SIZE) firmware fw
        offset flags).2.bytes.map List.length) = some FU_EP963_FIRMWARE_SIZE := by
  simp [fu_firmware_parse_full, fu_ep963x_firmware_parse, fu_firmware_set_bytes, h]

/-- A three-byte payload against the constant 3. -/
theorem ep963x_parse_exact_size_witness :
    ([1, 2, 3] : GBytes).length = 3 ∧
      (fu_ep963x_firmware_parse 3 fu_firmware_new [1, 2, 3] 0 0).1 = .ok () ∧
      (fu_firmware_parse_full (fu_ep963x_firmware_parse 3) fu_firmware_new [1, 2, 3] 0 0).1 =
        .ok () ∧
      (fu_firmware_parse_full (fu_ep963x_firmware_parse 3) fu_firmware_new [1, 2, 3] 0
        0).2.bytes = some [1, 2, 3] ∧
      ((fu_firmware_parse_full (fu_ep963x_firmware_parse 3) fu_firmware_new [1, 2, 3] 0
        0).2.bytes.map List.length) = some 3 :=
  ⟨rfl, ep963x_parse_exact_size 3 fu_firmware_new [1, 2, 3] 0 0 rfl⟩


/-! ## Theorems: the computed-size variant -/

theorem fu_bytes_new_offset_fits (bytes : GBytes) (offset length : Nat)
    (h : offset + length ≤ bytes.length) :
    fu_bytes_new_offset bytes offset length = .ok ((bytes.drop offset).take length) := by
  unfold fu_bytes_new_offset
  rw [if_neg (by omega)]

theorem fu_bytes_new_offset_too_long (bytes : GBytes) (offset length : Nat)
    (h : bytes.length < offset + length) :
    ∃ e, fu_bytes_new_offset bytes offset length = .error e := by
  unfold fu_bytes_new_offset
  rw [if_pos h]
  exact ⟨_, rfl⟩

/-- The parse once the size computation has returned `C` and `[offset, offset + C)` lies
within the input: the payload is stored, then the checksum gate and the version step
decide the result. -/
theorem genesys_parse_after_truncation (c : GenesysCollaborators) (firmware : FuFirmware)
    (fw : GBytes) (offset flags C : Nat)
    (hC : c.fu_genesys_usbhub_firmware_calculate_size fw offset = .ok C)
    (hfit : offset + C ≤ fw.length) :
    fu_genesys_usbhub_pd_firmware_parse c firmware fw offset flags =
      match (if flags &&& c.FWUPD_INSTALL_FLAG_IGNORE_CHECKSUM = 0 then
          c.fu_genesys_usbhub_firmware_verify_checksum ((fw.drop offset).take C)
        else .ok ()) with
      | .error e =>
        (.error (g_prefix_error "not valid for pd: " e),
          { id := c.fu_genesys_fw_type_to_string c.FU_GENESYS_FW_TYPE_PD,
            idx := c.FU_GENESYS_FW_TYPE_PD, alignment := c.FU_FIRMWARE_ALIGNMENT_1K,
            bytes := some ((fw.drop offset).take C), version := firmware.version,
            flags := firmware.flags })
      | .ok () =>
        match c.extract_version ((fw.drop offset).take C) with
        | .error e =>
          (.error (g_prefix_error "not valid for pd: " e),
            { id := c.fu_genesys_fw_type_to_string c.FU_GENESYS_FW_TYPE_PD,
              idx := c.FU_GENESYS_FW_TYPE_PD, alignment := c.FU_FIRMWARE_ALIGNMENT_1K,
              bytes := some ((fw.drop offset).take C), version := firmware.version,
              flags := firmware.flags })
        | .ok version =>
          (.ok (),
            { id := c.fu_genesys_fw_type_to_string c.FU_GENESYS_FW_TYPE_PD,
              idx := c.FU_GENESYS_FW_TYPE_PD, alignment := c.FU_FIRMWARE_ALIGNMENT_1K,
              bytes := some ((fw.drop offset).take C), version := some version,
              flags := firmware.flags }) := by
  unfold fu_genesys_usbhub_pd_firmware_parse
  dsimp only
  rw [hC]
  dsimp only
  rw [fu_bytes_new_offset_fits fw offset C hfit]
  dsimp only
  cases (if flags &&& c.FWUPD_INSTALL_FLAG_IGNORE_CHECKSUM = 0 then
      c.fu_genesys_usbhub_firmware_verify_checksum ((fw.drop offset).take C)
    else .ok ()) with
  | error e => rfl
  | ok u =>
    dsimp only [fu_genesys_usbhub_firmware_ensure_version, fu_firmware_set_bytes,
      fu_firmware_set_alignment, fu_firmware_set_idx, fu_firmware_set_id,
      fu_firmware_set_version]
    cases c.extract_version ((fw.drop offset).take C) with
    | error e => rfl
    | ok v => rfl


/-- C9: when the size computation returns `C`, a successful parse stores as payload
exactly the `C` input bytes at `[offset, offset + C)` (length `C`, nothing beyond
`offset + C` kept), and `offset + C` then lies within the input; if `offset + C` exceeds
the input length the parse fails and no payload is stored. -/
theorem genesys_parse_payload_is_computed_slice (c : GenesysCollaborators)
    (firmware : FuFirmware) (fw : GBytes) (offset flags C : Nat)
    (hC : c.fu_genesys_usbhub_firmware_calculate_size fw offset = .ok C) :
    (∀ firmware1,
        fu_genesys_usbhub_pd_firmware_parse c firmware fw offset flags = (.ok (), firmware1) →
        firmware1.bytes = some ((fw.drop offset).take C) ∧
          ((fw.drop offset).take C).length = C ∧ offset + C ≤ fw.length) ∧
      (fw.length < offset + C →
        ∃ e firmware1,
          fu_genesys_usbhub_pd_firmware_parse c firmware fw offset flags =
            (.error e, firmware1) ∧ firmware1.bytes = firmware.bytes) := by
  by_cases hfit : offset + C ≤ fw.length
  · refine ⟨?_, fun h => absurd hfit (by omega)⟩
    intro firmware1 hok
    rw [genesys_parse_after_truncation c firmware fw offset flags C hC hfit] at hok
    have hlen : ((fw.drop offset).take C).length = C := by
      rw [List.length_take, List.length_drop]; omega
    refine ⟨?_, hlen, hfit⟩
    cases hv : (if flags &&& c.FWUPD_INSTALL_FLAG_IGNORE_CHECKSUM = 0 then
        c.fu_genesys_usbhub_firmware_verify_checksum ((fw.drop offset).take C)
      else .ok ()) with
    | error e => rw [hv] at hok; simp at hok
    | ok u =>
      rw [hv] at hok
      dsimp only at hok
      cases hx : c.extract_version ((fw.drop offset).take C) with
      | error e => rw [hx] at hok; simp at hok
      | ok v =>
        rw [hx] at hok
        simp only [Prod.mk.injEq, true_and] at hok
        rw [← hok]
  · have hlong : fw.length < offset + C := by omega
    obtain ⟨e, he⟩ := fu_bytes_new_offset_too_long fw offset C hlong
    have hfail : fu_genesys_usbhub_pd_firmware_parse c firmware fw offset flags =
        (.error e, fu_firmware_set_alignment (fu_firmware_set_idx (fu_firmware_set_id firmware
          (c.fu_genesys_fw_type_to_string c.FU_GENESYS_FW_TYPE_PD)) c.FU_GENESYS_FW_TYPE_PD)
          c.FU_FIRMWARE_ALIGNMENT_1K) := by
      unfold fu_genesys_usbhub_pd_firmware_parse
      dsimp only
      rw [hC]
      dsimp only
      rw [he]
    refine ⟨?_, fun _ => ⟨e, _, hfail, rfl⟩⟩
    intro firmware1 hok
    rw [hfail] at hok
    simp at hok

/-- A seven-byte input whose header at offset 1 announces four bytes: the payload kept is
those four bytes. -/
theorem genesys_parse_payload_is_computed_slice_witness :
    sample_collaborators.fu_genesys_usbhub_firmware_calculate_size [9, 4, 2, 3, 9, 7, 7] 1 =
        .ok 4 ∧
      ∃ firmware1,
        fu_genesys_usbhub_pd_firmware_parse sample_collaborators fu_firmware_new
            [9, 4, 2, 3, 9, 7, 7] 1 0 = (.ok (), firmware1) ∧
          firmware1.bytes = some [4, 2, 3, 9] :=
  ⟨by decide,
    ⟨some "pd", 3, 0x0A, some [4, 2, 3, 9], some "2", 0⟩, by decide,
    ((genesys_parse_payload_is_computed_slice sample_collaborators fu_firmware_new
      [9, 4, 2, 3, 9, 7, 7] 1 0 4 (by decide)).1 _ (by decide)).1⟩

/-- C10: when size computation, truncation and version extraction succeed: (i) without
`FWUPD_INSTALL_FLAG_IGNORE_CHECKSUM` the parse succeeds exactly when the verifier accepts
the truncated payload, and a rejection makes it fail with the verifier's error, prefixed
"not valid for pd: "; (ii) with the flag set the parse succeeds, and its whole result is
the same for every verifier (the verifier is not consulted). -/
theorem genesys_parse_checksum_gate (c : GenesysCollaborators) (firmware : FuFirmware)
    (fw : GBytes) (offset flags C : Nat) (version : String)
    (hC : c.fu_genesys_usbhub_firmware_calculate_size fw offset = .ok C)
    (hfit : fu_bytes_new_offset fw offset C = .ok ((fw.drop offset).take C))
    (hver : c.extract_version ((fw.drop offset).take C) = .ok version) :
    (flags &&& c.FWUPD_INSTALL_FLAG_IGNORE_CHECKSUM = 0 →
        ((fu_genesys_usbhub_pd_firmware_parse c firmware fw offset flags).1 = .ok () ↔
          c.fu_genesys_usbhub_firmware_verify_checksum ((fw.drop offset).take C) = .ok ())) ∧
      (flags &&& c.FWUPD_INSTALL_FLAG_IGNORE_CHECKSUM = 0 →
        ∀ e, c.fu_genesys_usbhub_firmware_verify_checksum ((fw.drop offset).take C) = .error e →
          (fu_genesys_usbhub_pd_firmware_parse c firmware fw offset flags).1 =
            .error (g_prefix_error "not valid for pd: " e)) ∧
      (flags &&& c.FWUPD_INSTALL_FLAG_IGNORE_CHECKSUM ≠ 0 →
        (fu_genesys_usbhub_pd_firmware_parse c firmware fw offset flags).1 = .ok ()) ∧
      (flags &&& c.FWUPD_INSTALL_FLAG_IGNORE_CHECKSUM ≠ 0 →
        ∀ verify : GBytes → Except GError Unit,
          fu_genesys_usbhub_pd_firmware_parse
              { c with fu_genesys_usbhub_firmware_verify_checksum := verify } firmware fw
              offset flags =
            fu_genesys_usbhub_pd_firmware_parse c firmware fw offset flags) := by
  have hfit1 : offset + C ≤ fw.length := by
    by_contra hn
    obtain ⟨e, he⟩ := fu_bytes_new_offset_too_long fw offset C (by omega)
    rw [he] at hfit
    cases hfit
  rw [genesys_parse_after_truncation c firmware fw offset flags C hC hfit1]
  refine ⟨?_, ?_, ?_, ?_⟩
  · intro h0
    rw [if_pos h0]
    cases hv : c.fu_genesys_usbhub_firmware_verify_checksum ((fw.drop offset).take C) with
    | error e => simp
    | ok u => simp [hver]
  · intro h0 e he
    rw [if_pos h0, he]
  · intro h1
    rw [if_neg h1]
    simp [hver]
  · intro h1 verify
    rw [genesys_parse_after_truncation
      { c with fu_genesys_usbhub_firmware_verify_checksum := verify } firmware fw offset flags C
      hC hfit1]
    dsimp only
    rw [if_neg h1, if_neg h1]

/-- The same input with one retained byte changed: rejected without the flag, accepted
with it. -/
theorem genesys_parse_checksum_gate_witness :
    (sample_collaborators.fu_genesys_usbhub_firmware_calculate_size [9, 4, 2, 4, 9, 7, 7] 1 =
        .ok 4 ∧
      fu_bytes_new_offset [9, 4, 2, 4, 9, 7, 7] 1 4 =
        .ok ((([9, 4, 2, 4, 9, 7, 7] : GBytes).drop 1).take 4) ∧
      sample_collaborators.extract_version ((([9, 4, 2, 4, 9, 7, 7] : GBytes).drop 1).take 4) =
        .ok "2") ∧
    (fu_genesys_usbhub_pd_firmware_parse sample_collaborators fu_firmware_new
        [9, 4, 2, 4, 9, 7, 7] 1 0).1 =
      .error ⟨.OTHER 3, "not valid for pd: checksum mismatch"⟩ ∧
    (fu_genesys_usbhub_pd_firmware_parse sample_collaborators fu_firmware_new
        [9, 4, 2, 4, 9, 7, 7] 1 64).1 = .ok () :=
  ⟨by decide,
    (genesys_parse_checksum_gate sample_collaborators fu_firmware_new [9, 4, 2, 4, 9, 7, 7] 1 0
      4 "2" (by decide) (by decide) (by decide)).2.1 (by decide) ⟨.OTHER 3, "checksum mismatch"⟩
      (by decide),
    (genesys_parse_checksum_gate sample_collaborators fu_firmware_new [9, 4, 2, 4, 9, 7, 7] 1 64
      4 "2" (by decide) (by decide) (by decide)).2.2.1 (by decide)⟩

/-! ## Theorems: zero-length reads, 24-bit values, positions -/

/-- C12 (evaluation at the failing input): a request for 0 bytes at offset 0 of a
three-byte stream fails: the byte array of length 0 has a `NULL` data pointer, the guard
`buf != NULL` of the safe read returns `FALSE` without setting an error, and no seek or
read is issued (the stream comes back as it was). -/
theorem read_buf_zero_length_fails :
    fu_input_stream_read_buf ⟨[1, 2, 3], 0, false, []⟩ 0 0 =
      (.error ⟨.NO_ERROR_SET, "fu_input_stream_read_safe: assertion 'buf != NULL' failed"⟩,
        ⟨[1, 2, 3], 0, false, []⟩) ∧
    (g_seekable_seek ⟨[1, 2, 3], 0, false, []⟩ (gsize_to_goffset 0) .G_SEEK_SET).1 = .ok () := by
  decide

theorem byte_at_take_drop (data : List Byte) (o n i : Nat) (hi : i < n) :
    byte_at ((data.drop o).take n) i = byte_at data (o + i) := by
  unfold byte_at
  rw [List.getD_eq_getElem?_getD, List.getD_eq_getElem?_getD, List.getElem?_take_of_lt hi,
    List.getElem?_drop]

theorem byte_at_lt (data : List Byte) (i : Nat) : byte_at data i < 256 :=
  (data.getD i 0).isLt

/-- A 24-bit read of three bytes that lie within the stream: success, and the decoded
value of those three bytes. -/
theorem read_u24_in_range (stream : GInputStream) (offset v0 : Nat) (endian : FuEndianType)
    (ho : offset + 3 ≤ stream.data.length) (hmax : stream.data.length < 2 ^ 63) :
    fu_input_stream_read_u24 stream offset (some v0) endian =
      (.ok (), some (fu_memread_uint24 ((stream.data.drop offset).take 3) endian),
        { stream with pos := offset + 3,
                      log := stream.log ++ [StreamOp.seek offset .G_SEEK_SET,
                        StreamOp.read 3] }) := by
  have hlen : ((stream.data.drop offset).take 3).length = 3 := by
    rw [List.length_take, List.length_drop]; omega
  unfold fu_input_stream_read_u24
  dsimp only
  rw [read_safe_in_range stream _ 3 0 offset 3 (by omega) (by omega) hmax (by norm_num), hlen,
    if_neg (by decide), mem_store_full _ _ (by rw [hlen]; rfl)]
  rfl

/-- C13: when the stream holds at least 3 bytes at `offset`, `fu_input_stream_read_u24`
succeeds and stores a value below `2 ^ 24`, equal to `b0 + 2^8 * b1 + 2^16 * b2` for
little endian and `2^16 * b0 + 2^8 * b1 + b2` for big endian, `b0, b1, b2` being the
stream bytes at `offset`, `offset + 1`, `offset + 2`. -/
theorem read_u24_decodes_three_bytes (stream : GInputStream) (offset v0 : Nat)
    (ho : offset + 3 ≤ stream.data.length) (hmax : stream.data.length < 2 ^ 63) :
    ((fu_input_stream_read_u24 stream offset (some v0) .G_LITTLE_ENDIAN).1 = .ok () ∧
      (fu_input_stream_read_u24 stream offset (some v0) .G_LITTLE_ENDIAN).2.1 =
        some (byte_at stream.data offset + 2 ^ 8 * byte_at stream.data (offset + 1) +
          2 ^ 16 * byte_at stream.data (offset + 2)) ∧
      byte_at stream.data offset + 2 ^ 8 * byte_at stream.data (offset + 1) +
          2 ^ 16 * byte_at stream.data (offset + 2) < 2 ^ 24) ∧
    ((fu_input_stream_read_u24 stream offset (some v0) .G_BIG_ENDIAN).1 = .ok () ∧
      (fu_input_stream_read_u24 stream offset (some v0) .G_BIG_ENDIAN).2.1 =
        some (2 ^ 16 * byte_at stream.data offset + 2 ^ 8 * byte_at stream.data (offset + 1) +
          byte_at stream.data (offset + 2)) ∧
      2 ^ 16 * byte_at stream.data offset + 2 ^ 8 * byte_at stream.data (offset + 1) +
          byte_at stream.data (offset + 2) < 2 ^ 24) := by
  have h0 := byte_at_lt stream.data offset
  have h1 := byte_at_lt stream.data (offset + 1)
  have h2 := byte_at_lt stream.data (offset + 2)
  rw [read_u24_in_range stream offset v0 .G_LITTLE_ENDIAN ho hmax,
    read_u24_in_range stream offset v0 .G_BIG_ENDIAN ho hmax]
  simp only [fu_memread_uint24, byte_at_take_drop _ _ _ _ (show 0 < 3 by norm_num),
    byte_at_take_drop _ _ _ _ (show 1 < 3 by norm_num),
    byte_at_take_drop _ _ _ _ (show 2 < 3 by norm_num), Nat.add_zero]
  refine ⟨⟨trivial, trivial, by omega⟩, trivial, trivial, by omega⟩

/-- The bytes `0x56 0x34 0x12` at offset 1, read in both byte orders. -/
theorem read_u24_decodes_three_bytes_witness :
    (1 + 3 ≤ (⟨[9, 0x56, 0x34, 0x12], 0, false, []⟩ : GInputStream).data.length ∧
      (⟨[9, 0x56, 0x34, 0x12], 0, false, []⟩ : GInputStream).data.length < 2 ^ 63) ∧
    (fu_input_stream_read_u24 ⟨[9, 0x56, 0x34, 0x12], 0, false, []⟩ 1 (some 0)
        .G_LITTLE_ENDIAN).2.1 = some 0x123456 ∧
    (fu_input_stream_read_u24 ⟨[9, 0x56, 0x34, 0x12], 0, false, []⟩ 1 (some 0)
        .G_BIG_ENDIAN).2.1 = some 0x563412 :=
  ⟨by decide,
    (read_u24_decodes_three_bytes ⟨[9, 0x56, 0x34, 0x12], 0, false, []⟩ 1 0
      (by decide) (by decide)).1.2.1,
    (read_u24_decodes_three_bytes ⟨[9, 0x56, 0x34, 0x12], 0, false, []⟩ 1 0
      (by decide) (by decide)).2.2.1⟩

/-! ## Theorems: stream position, size query, running sum -/

/-- C15: a successful `fu_input_stream_read_safe` leaves the stream at absolute position
`seek_set + count`, whatever its position was before, and it is reported only when the
seek succeeded and the one read issued after it returned exactly `count` bytes. -/
theorem read_safe_success_position (stream : GInputStream) (buf : List Byte)
    (bufsz offset seek_set count : Nat) (buf1 : List Byte) (stream1 : GInputStream)
    (hss : seek_set < 2 ^ 64)
    (h : fu_input_stream_read_safe stream buf bufsz offset seek_set count =
      (.ok (), buf1, stream1)) :
    stream1.pos = seek_set + count ∧
      ∃ sought bytes,
        g_seekable_seek stream (gsize_to_goffset seek_set) .G_SEEK_SET = (.ok (), sought) ∧
          g_input_stream_read sought count = (.ok bytes, stream1) ∧ bytes.length = count := by
  refine ⟨(read_safe_ok_inv stream buf bufsz offset seek_set count buf1 stream1 hss h).2.2.2.2,
    ?_⟩
  unfold fu_input_stream_read_safe at h
  cases hchk : fu_memchk_write bufsz offset count with
  | error e => rw [hchk] at h; simp at h
  | ok u =>
    rw [hchk] at h
    dsimp only at h
    generalize hsk : g_seekable_seek stream (gsize_to_goffset seek_set) .G_SEEK_SET = r at h
    obtain ⟨ret, sought⟩ := r
    cases ret with
    | error e => simp at h
    | ok u1 =>
      dsimp only at h
      generalize hrd : g_input_stream_read sought count = r2 at h
      obtain ⟨ret2, s2⟩ := r2
      cases ret2 with
      | error e => simp at h
      | ok bytes =>
        dsimp only at h
        by_cases hl : bytes.length = count
        · rw [if_neg (not_not.mpr hl)] at h
          simp only [Prod.mk.injEq, true_and] at h
          obtain ⟨_, hs⟩ := h
          subst hs
          exact ⟨sought, bytes, rfl, hrd, hl⟩
        · rw [if_pos hl] at h
          simp at h

/-- Reading two bytes at offset 1 of a three-byte stream that stood at position 2. -/
theorem read_safe_success_position_witness :
    ((1 : Nat) < 2 ^ 64 ∧
      fu_input_stream_read_safe ⟨[1, 2, 3], 2, false, []⟩ [0, 0] 2 0 1 2 =
        (.ok (), [2, 3], ⟨[1, 2, 3], 3, false, [.seek 1 .G_SEEK_SET, .read 2]⟩)) ∧
    (⟨[1, 2, 3], 3, false, [.seek 1 .G_SEEK_SET, .read 2]⟩ : GInputStream).pos = 1 + 2 :=
  ⟨by decide,
    (read_safe_success_position ⟨[1, 2, 3], 2, false, []⟩ [0, 0] 2 0 1 2 [2, 3]
      ⟨[1, 2, 3], 3, false, [.seek 1 .G_SEEK_SET, .read 2]⟩ (by decide) (by decide)).1⟩

/-- C17 (as amended): `fu_input_stream_size` seeks to the end and does not seek back: the
call succeeds, reports the size, and leaves the stream positioned at the end (the
reported size), whatever the position was before; the content is untouched. -/
theorem size_leaves_stream_at_end (stream : GInputStream) (v : Nat) :
    (fu_input_stream_size stream (some v)).1 = .ok () ∧
      (fu_input_stream_size stream (some v)).2.1 = some stream.data.length ∧
      (fu_input_stream_size stream (some v)).2.2.pos = stream.data.length ∧
      (fu_input_stream_size stream (some v)).2.2.data = stream.data ∧
      (fu_input_stream_size stream (some v)).2.2.log =
        stream.log ++ [StreamOp.seek 0 .G_SEEK_END] := by
  rw [size_ok]
  exact ⟨rfl, rfl, rfl, rfl, rfl⟩

/-- C17 (counterexample to the claim as stated): on a three-byte stream standing at
position 0 the size query succeeds and leaves the stream at position 3. -/
theorem size_moves_position :
    fu_input_stream_size ⟨[1, 2, 3], 0, false, []⟩ (some 0) =
        (.ok (), some 3, ⟨[1, 2, 3], 3, false, [.seek 0 .G_SEEK_END]⟩) ∧
      (⟨[1, 2, 3], 3, false, [.seek 0 .G_SEEK_END]⟩ : GInputStream).pos ≠
        (⟨[1, 2, 3], 0, false, []⟩ : GInputStream).pos := by
  decide

/-- The value `fu_input_stream_compute_sum8` leaves, for any prior content of the
caller's `guint8`: the prior content plus the byte sum, modulo 256. -/
theorem compute_sum8_adds_to_value (stream : GInputStream) (v : Nat) (hv : v < 256)
    (hmax : stream.data.length < 2 ^ 63) :
    (fu_input_stream_compute_sum8 stream v).1 = .ok () ∧
      (fu_input_stream_compute_sum8 stream v).2.1 =
        (v + (stream.data.map Fin.val).sum) % 256 := by
  obtain ⟨s1, h⟩ := chunkify_eq_fold stream fu_input_stream_compute_sum8_cb v hmax
  rw [fold_cb_sum8 _ v hv, windows_join_take, List.take_of_length_le (by omega)] at h
  unfold fu_input_stream_compute_sum8
  rw [h]
  exact ⟨rfl, rfl⟩

/-- C14 (evaluation at the failing input): on the one-byte stream `01` the call leaves 6
when the caller's variable held 5 and 1 when it held 0: the result depends on what the
variable held before. -/
theorem compute_sum8_keeps_prior_value :
    (fu_input_stream_compute_sum8 ⟨[1], 0, false, []⟩ 5).1 = .ok () ∧
      (fu_input_stream_compute_sum8 ⟨[1], 0, false, []⟩ 5).2.1 = 6 ∧
      (fu_input_stream_compute_sum8 ⟨[1], 0, false, []⟩ 0).1 = .ok () ∧
      (fu_input_stream_compute_sum8 ⟨[1], 0, false, []⟩ 0).2.1 = 1 := by
  decide

/-! ## Theorems: the firmware object after a failed parse -/

/-- The parse when the size computation fails: id, index and alignment are already set. -/
theorem genesys_parse_size_fails (c : GenesysCollaborators) (firmware : FuFirmware)
    (fw : GBytes) (offset flags : Nat) (e : GError)
    (hC : c.fu_genesys_usbhub_firmware_calculate_size fw offset = .error e) :
    fu_genesys_usbhub_pd_firmware_parse c firmware fw offset flags =
      (.error (g_prefix_error "not valid for pd: " e),
        { id := c.fu_genesys_fw_type_to_string c.FU_GENESYS_FW_TYPE_PD,
          idx := c.FU_GENESYS_FW_TYPE_PD, alignment := c.FU_FIRMWARE_ALIGNMENT_1K,
          bytes := firmware.bytes, version := firmware.version, flags := firmware.flags }) := by
  unfold fu_genesys_usbhub_pd_firmware_parse
  dsimp only
  rw [hC]
  rfl

/-- The parse when the computed size does not fit in the input. -/
theorem genesys_parse_truncation_fails (c : GenesysCollaborators) (firmware : FuFirmware)
    (fw : GBytes) (offset flags C : Nat)
    (hC : c.fu_genesys_usbhub_firmware_calculate_size fw offset = .ok C)
    (hlong : fw.length < offset + C) :
    ∃ e, fu_genesys_usbhub_pd_firmware_parse c firmware fw offset flags =
      (.error e,
        { id := c.fu_genesys_fw_type_to_string c.FU_GENESYS_FW_TYPE_PD,
          idx := c.FU_GENESYS_FW_TYPE_PD, alignment := c.FU_FIRMWARE_ALIGNMENT_1K,
          bytes := firmware.bytes, version := firmware.version, flags := firmware.flags }) := by
  obtain ⟨e, he⟩ := fu_bytes_new_offset_too_long fw offset C hlong
  refine ⟨e, ?_⟩
  unfold fu_genesys_usbhub_pd_firmware_parse
  dsimp only
  rw [hC]
  dsimp only
  rw [he]
  rfl

/-- C11 (as amended): when `fu_genesys_usbhub_pd_firmware_parse` fails, the firmware
object is not restored: its id, index and alignment are the PD values set at the start;
its payload is unchanged when the size computation or the truncation failed, and is the
truncated payload when the checksum or the version step failed; version and flags are
as before. -/
theorem genesys_parse_failure_state (c : GenesysCollaborators) (firmware : FuFirmware)
    (fw : GBytes) (offset flags : Nat) (e : GError) (firmware1 : FuFirmware)
    (hfail : fu_genesys_usbhub_pd_firmware_parse c firmware fw offset flags =
      (.error e, firmware1)) :
    firmware1.id = c.fu_genesys_fw_type_to_string c.FU_GENESYS_FW_TYPE_PD ∧
      firmware1.idx = c.FU_GENESYS_FW_TYPE_PD ∧
      firmware1.alignment = c.FU_FIRMWARE_ALIGNMENT_1K ∧
      firmware1.version = firmware.version ∧
      firmware1.flags = firmware.flags ∧
      firmware1.bytes =
        (match c.fu_genesys_usbhub_firmware_calculate_size fw offset with
          | .error _ => firmware.bytes
          | .ok C => if fw.length < offset + C then firmware.bytes
            else some ((fw.drop offset).take C)) := by
  cases hC : c.fu_genesys_usbhub_firmware_calculate_size fw offset with
  | error e0 =>
    rw [genesys_parse_size_fails c firmware fw offset flags e0 hC] at hfail
    simp only [Prod.mk.injEq] at hfail
    obtain ⟨_, hf⟩ := hfail
    subst hf
    exact ⟨rfl, rfl, rfl, rfl, rfl, rfl⟩
  | ok C =>
    dsimp only
    by_cases hlong : fw.length < offset + C
    · obtain ⟨e1, he1⟩ := genesys_parse_truncation_fails c firmware fw offset flags C hC hlong
      rw [he1] at hfail
      simp only [Prod.mk.injEq] at hfail
      obtain ⟨_, hf⟩ := hfail
      subst hf
      rw [if_pos hlong]
      exact ⟨rfl, rfl, rfl, rfl, rfl, rfl⟩
    · rw [if_neg hlong]
      rw [genesys_parse_after_truncation c firmware fw offset flags C hC (by omega)] at hfail
      cases hv : (if flags &&& c.FWUPD_INSTALL_FLAG_IGNORE_CHECKSUM = 0 then
          c.fu_genesys_usbhub_firmware_verify_checksum ((fw.drop offset).take C)
        else .ok ()) with
      | error e2 =>
        rw [hv] at hfail
        simp only [Prod.mk.injEq] at hfail
        obtain ⟨_, hf⟩ := hfail
        subst hf
        exact ⟨rfl, rfl, rfl, rfl, rfl, rfl⟩
      | ok u =>
        rw [hv] at hfail
        dsimp only at hfail
        cases hx : c.extract_version ((fw.drop offset).take C) with
        | error e3 =>
          rw [hx] at hfail
          simp only [Prod.mk.injEq] at hfail
          obtain ⟨_, hf⟩ := hfail
          subst hf
          exact ⟨rfl, rfl, rfl, rfl, rfl, rfl⟩
        | ok ver =>
          rw [hx] at hfail
          simp at hfail

/-- A parse that fails at the checksum: the empty firmware passed in comes back with id,
index, alignment and the truncated payload set. -/
theorem genesys_parse_failure_state_witness :
    fu_genesys_usbhub_pd_firmware_parse sample_collaborators fu_firmware_new
        [9, 4, 2, 4, 9, 7, 7] 1 0 =
      (.error ⟨.OTHER 3, "not valid for pd: checksum mismatch"⟩,
        ⟨some "pd", 3, 0x0A, some [4, 2, 4, 9], none, 0⟩) ∧
    (⟨some "pd", 3, 0x0A, some [4, 2, 4, 9], none, 0⟩ : FuFirmware).id =
      sample_collaborators.fu_genesys_fw_type_to_string
        sample_collaborators.FU_GENESYS_FW_TYPE_PD :=
  ⟨by decide,
    (genesys_parse_failure_state sample_collaborators fu_firmware_new [9, 4, 2, 4, 9, 7, 7] 1 0
      ⟨.OTHER 3, "not valid for pd: checksum mismatch"⟩
      ⟨some "pd", 3, 0x0A, some [4, 2, 4, 9], none, 0⟩ (by decide)).1⟩

/-- C11 (counterexample to the claim as stated): a parse that fails at the checksum
returns failure, and the firmware object, empty before the call, now has an id, a
different index and alignment, and a payload. -/
theorem genesys_parse_failure_not_atomic :
    fu_genesys_usbhub_pd_firmware_parse sample_collaborators fu_firmware_new
        [9, 4, 2, 4, 9, 7, 7] 1 0 =
      (.error ⟨.OTHER 3, "not valid for pd: checksum mismatch"⟩,
        ⟨some "pd", 3, 0x0A, some [4, 2, 4, 9], none, 0⟩) ∧
    (⟨some "pd", 3, 0x0A, some [4, 2, 4, 9], none, 0⟩ : FuFirmware).id ≠ fu_firmware_new.id ∧
    (⟨some "pd", 3, 0x0A, some [4, 2, 4, 9], none, 0⟩ : FuFirmware).idx ≠ fu_firmware_new.idx ∧
    (⟨some "pd", 3, 0x0A, some [4, 2, 4, 9], none, 0⟩ : FuFirmware).alignment ≠
      fu_firmware_new.alignment ∧
    (⟨some "pd", 3, 0x0A, some [4, 2, 4, 9], none, 0⟩ : FuFirmware).bytes ≠
      fu_firmware_new.bytes := by
  decide

/-! ## Theorems: reads do not depend on the position left by earlier calls -/

/-- The verdict and the destination buffer of a safe read depend on the byte source only,
not on the position or the call log the stream had before; and a safe read leaves the
byte source as it was. -/
theorem read_safe_same_source (s t : GInputStream) (buf : List Byte)
    (bufsz offset seek_set count : Nat) (h : same_source s t) :
    (fu_input_stream_read_safe s buf bufsz offset seek_set count).1 =
        (fu_input_stream_read_safe t buf bufsz offset seek_set count).1 ∧
      (fu_input_stream_read_safe s buf bufsz offset seek_set count).2.1 =
        (fu_input_stream_read_safe t buf bufsz offset seek_set count).2.1 ∧
      same_source (fu_input_stream_read_safe s buf bufsz offset seek_set count).2.2 s := by
  obtain ⟨sd, sp, se, sl⟩ := s
  obtain ⟨td, tp, te, tl⟩ := t
  obtain ⟨hd, he⟩ := h
  dsimp only at hd he
  subst hd he
  unfold fu_input_stream_read_safe
  cases fu_memchk_write bufsz offset count with
  | error e => exact ⟨rfl, rfl, rfl, rfl⟩
  | ok u =>
    dsimp only
    unfold g_seekable_seek
    dsimp only
    by_cases hbad : ((0 : Int) + gsize_to_goffset seek_set < 0 ∨
        (se = false ∧ (sd.length : Int) < 0 + gsize_to_goffset seek_set))
    · rw [if_pos hbad, if_pos hbad]
      exact ⟨rfl, rfl, rfl, rfl⟩
    · rw [if_neg hbad, if_neg hbad]
      dsimp only
      unfold g_input_stream_read
      dsimp only
      by_cases h0 : count = 0
      · subst h0
        rw [if_pos rfl, if_pos rfl]
        dsimp only
        rw [if_neg (by simp), if_neg (by simp)]
        exact ⟨rfl, rfl, rfl, rfl⟩
      · rw [if_neg h0, if_neg h0]
        by_cases hbig : 2 ^ 63 ≤ count
        · rw [if_pos hbig, if_pos hbig]
          exact ⟨rfl, rfl, rfl, rfl⟩
        · rw [if_neg hbig, if_neg hbig]
          dsimp only
          by_cases hl : (List.take count (List.drop (0 + gsize_to_goffset seek_set).toNat
              sd)).length = count
          · rw [if_neg (not_not.mpr hl), if_neg (not_not.mpr hl)]
            exact ⟨rfl, rfl, rfl, rfl⟩
          · rw [if_pos hl, if_pos hl]
            exact ⟨rfl, rfl, rfl, rfl⟩

theorem same_source_refl (s : GInputStream) : same_source s s := ⟨rfl, rfl⟩

theorem same_source_symm {s t : GInputStream} (h : same_source s t) : same_source t s :=
  ⟨h.1.symm, h.2.symm⟩

theorem same_source_trans {s t u : GInputStream} (h1 : same_source s t)
    (h2 : same_source t u) : same_source s u :=
  ⟨h1.1.trans h2.1, h1.2.trans h2.2⟩

theorem size_same_source (s : GInputStream) (v : Nat) :
    same_source (fu_input_stream_size s (some v)).2.2 s := by
  rw [size_ok]
  exact ⟨rfl, rfl⟩

/-- C16: `fu_input_stream_size` called twice in a row succeeds both times with the same
size, and a safe read issued after a size call has the same verdict (success, or the same
error) and leaves the same bytes in the destination as the same read issued without
it. -/
theorem size_idempotent_reads_unaffected (stream : GInputStream) (v w : Nat)
    (buf : List Byte) (bufsz offset seek_set count : Nat) :
    ((fu_input_stream_size stream (some v)).1 = .ok () ∧
      (fu_input_stream_size (fu_input_stream_size stream (some v)).2.2 (some w)).1 = .ok () ∧
      (fu_input_stream_size (fu_input_stream_size stream (some v)).2.2 (some w)).2.1 =
        (fu_input_stream_size stream (some v)).2.1) ∧
    (fu_input_stream_read_safe (fu_input_stream_size stream (some v)).2.2 buf bufsz offset
        seek_set count).1 =
      (fu_input_stream_read_safe stream buf bufsz offset seek_set count).1 ∧
    (fu_input_stream_read_safe (fu_input_stream_size stream (some v)).2.2 buf bufsz offset
        seek_set count).2.1 =
      (fu_input_stream_read_safe stream buf bufsz offset seek_set count).2.1 := by
  have hr := read_safe_same_source (fu_input_stream_size stream (some v)).2.2 stream buf bufsz
    offset seek_set count (size_same_source stream v)
  refine ⟨?_, hr.1, hr.2.1⟩
  rw [size_ok stream v]
  dsimp only
  rw [size_ok]
  exact ⟨rfl, rfl, rfl⟩


/-! ## Theorems: chunkify stops at the first failure -/

theorem read_buf_same_source (s t : GInputStream) (offset length : Nat)
    (h : same_source s t) :
    (fu_input_stream_read_buf s offset length).1 =
        (fu_input_stream_read_buf t offset length).1 ∧
      same_source (fu_input_stream_read_buf s offset length).2 s := by
  by_cases hz : to_guint length = 0
  · rw [read_buf_null s offset length hz, read_buf_null t offset length hz]
    exact ⟨rfl, rfl, rfl⟩
  · rw [read_buf_nonzero s offset length hz, read_buf_nonzero t offset length hz]
    obtain ⟨h1, h2, h3⟩ := read_safe_same_source s t (List.replicate (to_guint length) 0)
      (to_guint length) 0 offset (to_guint length) h
    generalize fu_input_stream_read_safe s (List.replicate (to_guint length) 0)
      (to_guint length) 0 offset (to_guint length) = r at h1 h2 h3
    generalize fu_input_stream_read_safe t (List.replicate (to_guint length) 0)
      (to_guint length) 0 offset (to_guint length) = r2 at h1 h2
    obtain ⟨ret, b, s1⟩ := r
    obtain ⟨ret2, b2, s2⟩ := r2
    dsimp only at h1 h2 h3
    subst h1 h2
    cases ret with
    | error e => exact ⟨rfl, h3⟩
    | ok u => exact ⟨rfl, h3⟩

theorem read_bytes_same_source (s t : GInputStream) (offset length : Nat)
    (h : same_source s t) :
    (fu_input_stream_read_bytes s offset length).1 =
        (fu_input_stream_read_bytes t offset length).1 ∧
      same_source (fu_input_stream_read_bytes s offset length).2 s := by
  unfold fu_input_stream_read_bytes
  obtain ⟨h1, h3⟩ := read_buf_same_source s t offset length h
  generalize fu_input_stream_read_buf s offset length = r at h1 h3
  generalize fu_input_stream_read_buf t offset length = r2 at h1
  obtain ⟨ret, s1⟩ := r
  obtain ⟨ret2, s2⟩ := r2
  dsimp only at h1 h3
  subst h1
  cases ret with
  | error e => exact ⟨rfl, h3⟩
  | ok u => exact ⟨rfl, h3⟩

/-- A chunk lookup gives the same verdict and chunk on any two states of the same byte
source, and leaves the byte source as it was. -/
theorem chunk_array_index_same_source (chunks : FuChunkArray) (s t : GInputStream)
    (idx : Nat) (h : same_source s t) :
    (fu_chunk_array_index chunks s idx).1 = (fu_chunk_array_index chunks t idx).1 ∧
      same_source (fu_chunk_array_index chunks s idx).2 s := by
  unfold fu_chunk_array_index
  dsimp only
  by_cases hout : chunks.total_size ≤ idx * chunks.packet_sz
  · rw [if_pos hout, if_pos hout]
    exact ⟨rfl, same_source_refl s⟩
  · rw [if_neg hout, if_neg hout]
    obtain ⟨h1, h3⟩ := read_bytes_same_source s t (idx * chunks.packet_sz)
      (min chunks.packet_sz (chunks.total_size - idx * chunks.packet_sz)) h
    generalize fu_input_stream_read_bytes s (idx * chunks.packet_sz)
      (min chunks.packet_sz (chunks.total_size - idx * chunks.packet_sz)) = r at h1 h3
    generalize fu_input_stream_read_bytes t (idx * chunks.packet_sz)
      (min chunks.packet_sz (chunks.total_size - idx * chunks.packet_sz)) = r2 at h1
    obtain ⟨ret, s1⟩ := r
    obtain ⟨ret2, s2⟩ := r2
    dsimp only at h1 h3
    subst h1
    cases ret with
    | error e => exact ⟨rfl, h3⟩
    | ok u => exact ⟨rfl, h3⟩

/-- The loop of `fu_input_stream_chunkify` with a traced callback, started at index `i`
with `n` iterations left: the calls it adds to the trace are on the windows looked up at
`i, i + 1, ...`, in that order, every call but possibly the last was accepted, and the
loop ends in exactly one of three ways. -/
theorem chunkify_loop_trace {α : Type} (chunks : FuChunkArray)
    (func_cb : List Byte → Nat → α → Except GError Unit × α) (s : GInputStream) :
    ∀ (n i : Nat) (u : α) (tr : List (List Byte × Except GError Unit)) (t : GInputStream),
      same_source t s →
      ∃ new : List (List Byte × Except GError Unit),
        (fu_input_stream_chunkify_loop chunks (traced_cb func_cb) n i (u, tr) t).2.1.2 =
            tr ++ new ∧
          new.length ≤ n ∧
          (∀ j, j < new.length → ∃ chk,
            (fu_chunk_array_index chunks s (i + j)).1 = .ok chk ∧
              (new.getD j ([], .ok ())).1 = chk.data) ∧
          (∀ j, j + 1 < new.length → (new.getD j ([], .ok ())).2 = .ok ()) ∧
          (((fu_input_stream_chunkify_loop chunks (traced_cb func_cb) n i (u, tr) t).1 =
                .ok () ∧ new.length = n ∧
              ∀ j, j < new.length → (new.getD j ([], .ok ())).2 = .ok ()) ∨
            (∃ e,
              (fu_input_stream_chunkify_loop chunks (traced_cb func_cb) n i (u, tr) t).1 =
                  .error e ∧ new.length < n ∧
                (fu_chunk_array_index chunks s (i + new.length)).1 = .error e ∧
                ∀ j, j < new.length → (new.getD j ([], .ok ())).2 = .ok ()) ∨
            (∃ e,
              (fu_input_stream_chunkify_loop chunks (traced_cb func_cb) n i (u, tr) t).1 =
                  .error e ∧ 1 ≤ new.length ∧
                (new.getD (new.length - 1) ([], .ok ())).2 = .error e)) := by
  intro n
  induction n with
  | zero =>
    intro i u tr t _
    refine ⟨[], by simp [fu_input_stream_chunkify_loop], Nat.le_refl _, ?_, ?_, Or.inl ?_⟩
    · intro j hj; simp at hj
    · intro j hj; simp at hj
    · refine ⟨rfl, rfl, ?_⟩
      intro j hj; simp at hj
  | succ n ih =>
    intro i u tr t ht
    obtain ⟨hidx, hsrc⟩ := chunk_array_index_same_source chunks t s i ht
    unfold fu_input_stream_chunkify_loop
    generalize fu_chunk_array_index chunks t i = r at hidx hsrc
    obtain ⟨ret, t1⟩ := r
    dsimp only at hidx hsrc
    cases ret with
    | error e =>
      refine ⟨[], by simp, Nat.zero_le _, ?_, ?_, Or.inr (Or.inl ⟨e, rfl, ?_, ?_, ?_⟩)⟩
      · intro j hj; simp at hj
      · intro j hj; simp at hj
      · simp
      · simpa using hidx.symm
      · intro j hj; simp at hj
    | ok chk =>
      dsimp only [traced_cb, fu_chunk_get_data, fu_chunk_get_data_sz]
      rw [List.take_length]
      generalize func_cb chk.data chk.data.length u = cr
      obtain ⟨v, u1⟩ := cr
      dsimp only
      cases v with
      | error e =>
        refine ⟨[(chk.data, .error e)], rfl, by simp, ?_, ?_, Or.inr (Or.inr ⟨e, rfl, ?_, ?_⟩)⟩
        · intro j hj
          have hj0 : j = 0 := by simpa using hj
          subst hj0
          exact ⟨chk, by simpa using hidx.symm, rfl⟩
        · intro j hj; simp at hj
        · simp
        · simp
      | ok w =>
        obtain ⟨new, hnew, hlen, hwin, hacc, hend⟩ :=
          ih (i + 1) u1 (tr ++ [(chk.data, .ok ())]) t1 (same_source_trans hsrc ht)
        have hget : ∀ j, ((chk.data, (Except.ok () : Except GError Unit)) :: new).getD (j + 1)
            ([], .ok ()) = new.getD j ([], .ok ()) := fun j => by simp
        have hwin2 : ∀ j, j < ((chk.data, (Except.ok () : Except GError Unit)) :: new).length →
            ∃ c, (fu_chunk_array_index chunks s (i + j)).1 = .ok c ∧
              (((chk.data, (Except.ok () : Except GError Unit)) :: new).getD j
                ([], .ok ())).1 = c.data := by
          intro j hj
          cases j with
          | zero => exact ⟨chk, by simpa using hidx.symm, rfl⟩
          | succ j =>
            obtain ⟨c, hc1, hc2⟩ := hwin j (by simpa using hj)
            refine ⟨c, ?_, by rw [hget]; exact hc2⟩
            have : i + (j + 1) = i + 1 + j := by omega
            rw [this]; exact hc1
        have hall : (∀ j, j < new.length → (new.getD j ([], .ok ())).2 = .ok ()) →
            ∀ j, j < ((chk.data, (Except.ok () : Except GError Unit)) :: new).length →
              (((chk.data, (Except.ok () : Except GError Unit)) :: new).getD j
                ([], .ok ())).2 = .ok () := by
          intro h j hj
          cases j with
          | zero => rfl
          | succ j => rw [hget]; exact h j (by simpa using hj)
        refine ⟨(chk.data, .ok ()) :: new, ?_, by simpa using hlen, hwin2, ?_, ?_⟩
        · rw [hnew]; simp
        · intro j hj
          cases j with
          | zero => rfl
          | succ j => rw [hget]; exact hacc j (by simpa using hj)
        · rcases hend with ⟨hok, hk, hv⟩ | ⟨e, herr, hk, hlook, hv⟩ | ⟨e, herr, hk, hlast⟩
          · exact Or.inl ⟨hok, by simpa using hk, hall hv⟩
          · refine Or.inr (Or.inl ⟨e, herr, by simpa using hk, ?_, hall hv⟩)
            have : i + ((chk.data, (Except.ok () : Except GError Unit)) :: new).length =
                i + 1 + new.length := by simp; omega
            rw [this]; exact hlook
          · refine Or.inr (Or.inr ⟨e, herr, by simp, ?_⟩)
            have : ((chk.data, (Except.ok () : Except GError Unit)) :: new).length - 1 =
                (new.length - 1) + 1 := by simp; omega
            rw [this, hget]; exact hlast

/-- `fu_input_stream_chunkify` is its loop run over the chunk array of the stream, and
that loop, for every chunk array, stream and callback, stops at the first failing step:
the callback is called on the windows looked up at indices `0, 1, ...` in order, every
call but possibly the last is accepted, and either (a) no step fails, the loop succeeds
and the callback was called on all `n` windows, or (b) the lookup of window `k` fails,
the loop fails with that error and the callback was called on windows `0..k-1`, or
(c) the callback rejects window `k-1`, the loop fails with that error and the callback
was called on windows `0..k-1`, the rejected one being the last. -/
theorem chunkify_stops_at_first_failure {α : Type}
    (func_cb : List Byte → Nat → α → Except GError Unit × α) (u : α) :
    (∀ stream : GInputStream, ∃ s1, same_source s1 stream ∧
      fu_input_stream_chunkify stream (traced_cb func_cb) (u, []) =
        fu_input_stream_chunkify_loop ⟨0, 0x8000, stream.data.length⟩ (traced_cb func_cb)
          (fu_chunk_array_length ⟨0, 0x8000, stream.data.length⟩) 0 (u, []) s1) ∧
    (∀ (chunks : FuChunkArray) (n : Nat) (s : GInputStream),
      ∃ calls : List (List Byte × Except GError Unit),
        (fu_input_stream_chunkify_loop chunks (traced_cb func_cb) n 0 (u, []) s).2.1.2 =
            calls ∧
          calls.length ≤ n ∧
          (∀ j, j < calls.length → ∃ chk,
            (fu_chunk_array_index chunks s j).1 = .ok chk ∧
              (calls.getD j ([], .ok ())).1 = chk.data) ∧
          (∀ j, j + 1 < calls.length → (calls.getD j ([], .ok ())).2 = .ok ()) ∧
          (((fu_input_stream_chunkify_loop chunks (traced_cb func_cb) n 0 (u, []) s).1 =
                .ok () ∧ calls.length = n ∧
              ∀ j, j < calls.length → (calls.getD j ([], .ok ())).2 = .ok ()) ∨
            (∃ e,
              (fu_input_stream_chunkify_loop chunks (traced_cb func_cb) n 0 (u, []) s).1 =
                  .error e ∧ calls.length < n ∧
                (fu_chunk_array_index chunks s calls.length).1 = .error e ∧
                ∀ j, j < calls.length → (calls.getD j ([], .ok ())).2 = .ok ()) ∨
            (∃ e,
              (fu_input_stream_chunkify_loop chunks (traced_cb func_cb) n 0 (u, []) s).1 =
                  .error e ∧ 1 ≤ calls.length ∧
                (calls.getD (calls.length - 1) ([], .ok ())).2 = .error e))) := by
  refine ⟨?_, ?_⟩
  · intro stream
    refine ⟨{ stream with pos := stream.data.length,
                          log := stream.log ++ [StreamOp.seek 0 .G_SEEK_END] },
      ⟨rfl, rfl⟩, ?_⟩
    unfold fu_input_stream_chunkify
    rw [chunk_array_new_ok]
  · intro chunks n s
    obtain ⟨new, hnew, hlen, hwin, hacc, hend⟩ :=
      chunkify_loop_trace chunks func_cb s n 0 u [] s (same_source_refl s)
    simp only [Nat.zero_add, List.nil_append] at hnew hwin hend
    exact ⟨new, hnew, hlen, hwin, hacc, hend⟩

/-- The loop on a chunk array that counts on more bytes than the stream holds (a state
`fu_input_stream_chunkify` does not reach from a stream of valid size): with windows of
2 bytes and a count of 5 over a three-byte stream, the lookup of window 0 succeeds and
the lookup of window 1 fails; the loop returns that lookup's error and the callback has
been called on window 0 only. -/
theorem chunkify_lookup_failure_skips_callback :
    (fu_chunk_array_index ⟨0, 2, 5⟩ ⟨[1, 2, 3], 0, false, []⟩ 0).1 = .ok ⟨0, 0, [1, 2]⟩ ∧
    (fu_chunk_array_index ⟨0, 2, 5⟩ ⟨[1, 2, 3], 0, false, []⟩ 1).1 =
      .error ⟨.G_IO_ERROR_PARTIAL_INPUT, "requested 0x2 and got 0x1"⟩ ∧
    (fu_input_stream_chunkify_loop ⟨0, 2, 5⟩ (traced_cb fu_input_stream_compute_sum8_cb)
        (fu_chunk_array_length ⟨0, 2, 5⟩) 0 (0, []) ⟨[1, 2, 3], 0, false, []⟩).1 =
      .error ⟨.G_IO_ERROR_PARTIAL_INPUT, "requested 0x2 and got 0x1"⟩ ∧
    (fu_input_stream_chunkify_loop ⟨0, 2, 5⟩ (traced_cb fu_input_stream_compute_sum8_cb)
        (fu_chunk_array_length ⟨0, 2, 5⟩) 0 (0, []) ⟨[1, 2, 3], 0, false, []⟩).2.1 =
      (3, [([1, 2], .ok ())]) := by
  decide

/-- A callback failure in the middle: with windows of 2 bytes over six bytes and a
callback that rejects once the running sum passes 5, the loop fails on window 1 with the
callback's error, having called it on windows 0 and 1 and never on window 2. -/
theorem chunkify_callback_failure_example :
    fu_chunk_array_length ⟨0, 2, 6⟩ = 3 ∧
    (fu_input_stream_chunkify_loop ⟨0, 2, 6⟩ (traced_cb (limit_cb 5))
        (fu_chunk_array_length ⟨0, 2, 6⟩) 0 (0, []) ⟨[1, 2, 3, 4, 5, 6], 0, false, []⟩).1 =
      .error ⟨.OTHER 5, "limit exceeded"⟩ ∧
    (fu_input_stream_chunkify_loop ⟨0, 2, 6⟩ (traced_cb (limit_cb 5))
        (fu_chunk_array_length ⟨0, 2, 6⟩) 0 (0, []) ⟨[1, 2, 3, 4, 5, 6], 0, false, []⟩).2.1 =
      (3, [([1, 2], .ok ()), ([3, 4], .error ⟨.OTHER 5, "limit exceeded"⟩)]) := by
  decide

theorem mem_store_nil (buf : List Byte) (offset : Nat) : mem_store buf offset [] = buf := by
  simp [mem_store]

theorem mem_store_length (buf bytes : List Byte) (offset : Nat)
    (h : offset + bytes.length ≤ buf.length) :
    (mem_store buf offset bytes).length = buf.length := by
  simp only [mem_store, List.length_append, List.length_take, List.length_drop]
  omega

theorem mem_store_outside (buf bytes : List Byte) (offset j : Nat)
    (h : offset + bytes.length ≤ buf.length) (hj : j < offset ∨ offset + bytes.length ≤ j) :
    (mem_store buf offset bytes)[j]? = buf[j]? := by
  unfold mem_store
  have htake : (buf.take offset).length = offset := by
    rw [List.length_take]; omega
  rcases hj with hj | hj
  · rw [List.append_assoc, List.getElem?_append_left (by rw [htake]; exact hj),
      List.getElem?_take_of_lt hj]
  · rw [List.getElem?_append_right (by rw [List.length_append, htake]; exact hj),
      List.length_append, htake, List.getElem?_drop]
    congr 1
    omega

theorem mem_store_inside (buf bytes : List Byte) (offset : Nat)
    (h : offset + bytes.length ≤ buf.length) :
    ((mem_store buf offset bytes).drop offset).take bytes.length = bytes := by
  unfold mem_store
  have htake : (buf.take offset).length = offset := by
    rw [List.length_take]; omega
  rw [List.append_assoc]
  nth_rewrite 1 [← htake]
  rw [List.drop_left, List.take_left]

/-- The destination of a safe read is always the original buffer with the bytes the read
returned, at most `count` of them, stored at `offset`; bytes are stored only when the
bounds check passed. -/
theorem read_safe_buf_shape (s : GInputStream) (buf : List Byte)
    (bufsz offset seek_set count : Nat) :
    ∃ bytes, (fu_input_stream_read_safe s buf bufsz offset seek_set count).2.1 =
        mem_store buf offset bytes ∧ bytes.length ≤ count ∧
      (bytes = [] ∨ offset + count ≤ bufsz) := by
  unfold fu_input_stream_read_safe
  by_cases hchk : bufsz < offset + count
  · simp only [fu_memchk_write, hchk, if_true]
    exact ⟨[], (mem_store_nil buf offset).symm, Nat.zero_le _, Or.inl rfl⟩
  · simp only [fu_memchk_write, hchk, if_false]
    generalize g_seekable_seek s (gsize_to_goffset seek_set) .G_SEEK_SET = r
    obtain ⟨ret, s1⟩ := r
    cases ret with
    | error e => exact ⟨[], (mem_store_nil buf offset).symm, Nat.zero_le _, Or.inl rfl⟩
    | ok u =>
      dsimp only
      have hread : ∃ bytes s2, (g_input_stream_read s1 count = (.ok bytes, s2) ∧
          bytes.length ≤ count) ∨ ∃ e, g_input_stream_read s1 count = (.error e, s2) := by
        unfold g_input_stream_read
        by_cases h0 : count = 0
        · rw [if_pos h0]
          exact ⟨[], _, Or.inl ⟨rfl, Nat.zero_le _⟩⟩
        · rw [if_neg h0]
          by_cases hbig : 2 ^ 63 ≤ count
          · rw [if_pos hbig]
            exact ⟨[], _, Or.inr ⟨_, rfl⟩⟩
          · rw [if_neg hbig]
            exact ⟨_, _, Or.inl ⟨rfl, by rw [List.length_take]; omega⟩⟩
      obtain ⟨bytes, s2, hr | ⟨e, hr⟩⟩ := hread
      · rw [hr.1]
        dsimp only
        by_cases hl : bytes.length = count
        · rw [if_neg (not_not.mpr hl)]
          exact ⟨bytes, rfl, hr.2, Or.inr (by omega)⟩
        · rw [if_pos hl]
          exact ⟨bytes, rfl, hr.2, Or.inr (by omega)⟩
      · rw [hr]
        exact ⟨[], (mem_store_nil buf offset).symm, Nat.zero_le _, Or.inl rfl⟩

/-- C19: for every call of `fu_input_stream_read_safe` on a buffer of `bufsz` bytes,
successful or not, the buffer keeps its length and its bytes outside
`[offset, offset + count)`; on success the bytes in `[offset, offset + count)` are the
stream bytes at `[seek_set, seek_set + count)`, `count` of them. -/
theorem read_safe_buffer_frame (stream : GInputStream) (buf : List Byte)
    (bufsz offset seek_set count : Nat) (hbuf : buf.length = bufsz)
    (hss : seek_set < 2 ^ 64) :
    (fu_input_stream_read_safe stream buf bufsz offset seek_set count).2.1.length =
        buf.length ∧
      (∀ j, j < offset ∨ offset + count ≤ j →
        (fu_input_stream_read_safe stream buf bufsz offset seek_set count).2.1[j]? = buf[j]?) ∧
      ((fu_input_stream_read_safe stream buf bufsz offset seek_set count).1 = .ok () →
        (((fu_input_stream_read_safe stream buf bufsz offset seek_set count).2.1.drop
            offset).take count = (stream.data.drop seek_set).take count ∧
          ((stream.data.drop seek_set).take count).length = count)) := by
  obtain ⟨bytes, hshape, hle, hcase⟩ :=
    read_safe_buf_shape stream buf bufsz offset seek_set count
  have hfit : offset + bytes.length ≤ buf.length ∨ bytes = [] := by
    rcases hcase with h | h
    · exact Or.inr h
    · exact Or.inl (by omega)
  refine ⟨?_, ?_, ?_⟩
  · rw [hshape]
    rcases hfit with h | h
    · exact mem_store_length buf bytes offset h
    · rw [h, mem_store_nil]
  · intro j hj
    rw [hshape]
    rcases hfit with h | h
    · exact mem_store_outside buf bytes offset j h (by omega)
    · rw [h, mem_store_nil]
  · intro hok
    have heq : fu_input_stream_read_safe stream buf bufsz offset seek_set count =
        (.ok (), (fu_input_stream_read_safe stream buf bufsz offset seek_set count).2.1,
          (fu_input_stream_read_safe stream buf bufsz offset seek_set count).2.2) := by
      rw [← hok]
    obtain ⟨hchk, _, hlen, hb, _⟩ :=
      read_safe_ok_inv stream buf bufsz offset seek_set count _ _ hss heq
    refine ⟨?_, hlen⟩
    rw [hb]
    have h := mem_store_inside buf ((stream.data.drop seek_set).take count) offset
      (by rw [hlen]; omega)
    rw [hlen] at h
    exact h

/-- Two bytes read from offset 1 of a stream into the middle of a four-byte buffer; the
first and last bytes of the buffer are kept. -/
theorem read_safe_buffer_frame_witness :
    (([7, 7, 7, 7] : List Byte).length = 4 ∧ (1 : Nat) < 2 ^ 64) ∧
    (fu_input_stream_read_safe ⟨[1, 2, 3], 0, false, []⟩ [7, 7, 7, 7] 4 1 1 2).2.1 =
      [7, 2, 3, 7] ∧
    (fu_input_stream_read_safe ⟨[1, 2, 3], 0, false, []⟩ [7, 7, 7, 7] 4 1 1 2).2.1.length =
      ([7, 7, 7, 7] : List Byte).length :=
  ⟨by decide, by decide,
    (read_safe_buffer_frame ⟨[1, 2, 3], 0, false, []⟩ [7, 7, 7, 7] 4 1 1 2 (by decide)
      (by decide)).1⟩

end Fwupd
